import Mathlib

/-!
# Catapult Commander — ballistic-solver kernel, shallow embedding

Shallow embedding of the physics kernel of `src/src/App.jsx`:

* `calculateLaunchVector` — closed-form release state (lines 63-101);
* `simulateFlightPath`    — fixed-step flight integrator (lines 104-128);
* `solveTensionForAngle`  — inner binary search over stiffness (lines 140-164);
* `runOptimizer`          — outer angle sweep and commit logic (lines 166-191);
* `animStep` / `animGoX`  — the render loop's FLIGHT-phase physics (lines 349-371).

JavaScript numbers are embedded as real numbers.  The one place where IEEE
semantics and real semantics visibly part ways — the `vel.x / v` drag
decomposition at speed exactly zero, which is `0/0 = NaN` in JavaScript but
`0` in Mathlib's total division — is modelled twice: `flightStep` uses total
real division, and `flightStepChecked` returns `none` exactly when the
JavaScript computation would produce `NaN`.
-/

noncomputable section

open Real

/-- The `specs` record (lines 43-52): all eight independent numeric fields. -/
structure LauncherSpec where
  tension : ℝ
  armLength : ℝ
  armMass : ℝ
  projMass : ℝ
  angle : ℝ
  targetDist : ℝ
  wind : ℝ
  drag : ℝ

/-- A 2D vector; the kernel's flight plane (the source's `z` is identically 0). -/
structure Vec2 where
  x : ℝ
  y : ℝ

/-- A 3D vector, used by the render loop (`THREE.Vector3`). -/
structure Vec3 where
  x : ℝ
  y : ℝ
  z : ℝ

/-- Release state: position and velocity, the `{ pos, vel }` object of line 100. -/
structure Launch where
  pos : Vec2
  vel : Vec2

/-- `calculateLaunchVector` (lines 63-101): closed-form energy-balance release state. -/
def calculateLaunchVector (p : LauncherSpec) : Launch :=
  let rad := p.angle * (Real.pi / 180)
  let releaseTheta := (p.angle - 90) * (Real.pi / 180)
  let I := (p.armMass * p.armLength ^ 2) / 3 + p.projMass * p.armLength ^ 2
  let swingArc : ℝ := 2.3
  let PE := 0.5 * p.tension * swingArc ^ 2
  let efficiency : ℝ := 0.4
  let KEusable := PE * efficiency
  let omega := Real.sqrt ((2 * KEusable) / I)
  let vMag := omega * p.armLength
  { pos := ⟨0 + Real.cos releaseTheta * p.armLength,
            5.5 + Real.sin releaseTheta * p.armLength⟩,
    vel := ⟨Real.cos rad * vMag, Real.sin rad * vMag⟩ }

/-- The integrator's fixed step `const dt = 0.016` (line 107). -/
def simDt : ℝ := 0.016

/-- The integrator's step budget, `i < 5000` (line 109). -/
def simMaxSteps : ℕ := 5000

/-- One iteration of the loop body of `simulateFlightPath` (lines 110-123):
velocity is advanced by the current-step acceleration, then position by the
updated velocity.  State is `(position, velocity)`. -/
def flightStep (p : LauncherSpec) (s : Vec2 × Vec2) : Vec2 × Vec2 :=
  let vSq := s.2.x ^ 2 + s.2.y ^ 2
  let v := Real.sqrt vSq
  let Fd := 0.5 * 1.225 * vSq * p.drag * 0.05
  let ax := -(Fd * (s.2.x / v) + p.wind) / p.projMass
  let ay := -(Fd * (s.2.y / v)) / p.projMass - 9.81
  let vel2 : Vec2 := ⟨s.2.x + ax * simDt, s.2.y + ay * simDt⟩
  (⟨s.1.x + vel2.x * simDt, s.1.y + vel2.y * simDt⟩, vel2)

/-- The fuel-indexed loop of `simulateFlightPath` (lines 109-127): step, return
`pos.x` at the first step whose `pos.y ≤ 0`, else recurse; when the budget runs
out, return the last `pos.x`. -/
def simGo (p : LauncherSpec) : ℕ → Vec2 → Vec2 → ℝ
  | 0, pos, _ => pos.x
  | n + 1, pos, vel =>
    let s := flightStep p (pos, vel)
    if s.1.y ≤ 0 then s.1.x else simGo p n s.1 s.2

/-- `simulateFlightPath` (lines 104-128): range-only flight integration. -/
def simulateFlightPath (startPos startVel : Vec2) (p : LauncherSpec) : ℝ :=
  simGo p simMaxSteps startPos startVel

/-- `flightStep` with JavaScript float semantics for the drag decomposition made
explicit: at speed magnitude exactly zero the source computes `vel.x / v = 0/0`,
which is `NaN` in JavaScript; that case is modelled as `none`. -/
def flightStepChecked (p : LauncherSpec) (s : Vec2 × Vec2) : Option (Vec2 × Vec2) :=
  if Real.sqrt (s.2.x ^ 2 + s.2.y ^ 2) = 0 then none else some (flightStep p s)

/-- The loop of `simulateFlightPath` with the `NaN` case of `flightStepChecked`
propagated: once a step is `NaN`, every later comparison `pos.y <= 0` is false
and the returned `pos.x` is `NaN`, modelled as `none`. -/
def simGoChecked (p : LauncherSpec) : ℕ → Vec2 → Vec2 → Option ℝ
  | 0, pos, _ => some pos.x
  | n + 1, pos, vel =>
    match flightStepChecked p (pos, vel) with
    | none => none
    | some s => if s.1.y ≤ 0 then some s.1.x else simGoChecked p n s.1 s.2

/-- `simulateFlightPath` under the explicit-`NaN` model. -/
def simulateFlightPathChecked (startPos startVel : Vec2) (p : LauncherSpec) : Option ℝ :=
  simGoChecked p simMaxSteps startPos startVel

/-- The candidate evaluation of the inner search (lines 149-152): launch vector
from the spec with `tension` and `angle` overridden, flight simulated with the
original spec. -/
def evalDistAt (p : LauncherSpec) (a t : ℝ) : ℝ :=
  let launch := calculateLaunchVector { p with tension := t, angle := a }
  simulateFlightPath launch.pos launch.vel p

/-- `err = dist - specs.targetDist` (line 154). -/
def evalErrAt (p : LauncherSpec) (a t : ℝ) : ℝ :=
  evalDistAt p a t - p.targetDist

/-- The best-seen update of lines 156-159.  The source initialises
`bestErr = Infinity`, so the very first comparison always succeeds; the
not-yet-initialised state is modelled as `none`. -/
def bestUpd (p : LauncherSpec) (a : ℝ) (best : Option (ℝ × ℝ)) (mid : ℝ) :
    Option (ℝ × ℝ) :=
  match best with
  | none => some (mid, |evalErrAt p a mid|)
  | some b => if |evalErrAt p a mid| < b.2 then some (mid, |evalErrAt p a mid|) else some b

/-- The 40-iteration bisection loop of `solveTensionForAngle` (lines 145-162):
evaluate the bracket midpoint, update the best-seen pair, then narrow the
bracket (`if (err > 0) max = mid; else min = mid`). -/
def innerLoop (p : LauncherSpec) (a : ℝ) : ℕ → ℝ → ℝ → Option (ℝ × ℝ) → Option (ℝ × ℝ)
  | 0, _, _, best => best
  | n + 1, mn, mx, best =>
    let mid := (mn + mx) / 2
    let best2 := bestUpd p a best mid
    if 0 < evalErrAt p a mid then innerLoop p a n mn mid best2
    else innerLoop p a n mid mx best2

/-- `solveTensionForAngle` (lines 140-164): bracket `[100, 150000]`, 40
iterations, returning the best `(stiffness, |error|)` pair seen. -/
def solveTensionForAngle (p : LauncherSpec) (a : ℝ) : Option (ℝ × ℝ) :=
  innerLoop p a 40 100 150000 none

/-- The midpoints actually visited by `innerLoop`, in evaluation order. -/
def innerPath (p : LauncherSpec) (a : ℝ) : ℕ → ℝ → ℝ → List ℝ
  | 0, _, _ => []
  | n + 1, mn, mx =>
    let mid := (mn + mx) / 2
    mid :: (if 0 < evalErrAt p a mid then innerPath p a n mn mid
            else innerPath p a n mid mx)

/-- The candidate angles of the sweep, `for (let a = 15; a <= 75; a += 5)`
(line 176). -/
def sweepAngles : List ℝ :=
  (List.range 13).map (fun i => 15 + 5 * (i : ℝ))

/-- The sweep fold (lines 176-182): run the inner search at each candidate
angle and keep the global best `((stiffness, |error|), angle)` by `|error|`.
The `none` branch never fires: `solveTensionForAngle` always returns `some`. -/
def sweepFold (p : LauncherSpec) (init : (ℝ × ℝ) × ℝ) (l : List ℝ) : (ℝ × ℝ) × ℝ :=
  l.foldl
    (fun acc a =>
      match solveTensionForAngle p a with
      | none => acc
      | some att => if att.2 < acc.1.2 then (att, a) else acc)
    init

/-- The optimizer's observable outcome: the solution committed at line 191
(`tension: Math.round(solution.t), angle: Math.round(finalAngle)`) together
with the pre-rounding values and the `autoCorrected` flag. -/
structure OptResult where
  t : ℝ
  angle : ℝ
  err : ℝ
  autoCorrected : Bool
  commitT : ℤ
  commitAngle : ℤ

/-- `runOptimizer` (lines 166-191): inner search at the caller's angle; if its
error exceeds 1.0, sweep the candidate angles and commit the sweep's best only
when its error is below 2.0.  The `none` branch never fires
(`solveTension_spec` below proves the inner search always returns `some`). -/
def runOptimizer (p : LauncherSpec) : OptResult :=
  match solveTensionForAngle p p.angle with
  | none => ⟨0, 0, 0, false, 0, 0⟩
  | some sol =>
    if 1 < sol.2 then
      let best := sweepFold p (sol, p.angle) sweepAngles
      if best.1.2 < 2 then
        ⟨best.1.1, best.2, best.1.2, true, round best.1.1, round best.2⟩
      else ⟨sol.1, p.angle, sol.2, false, round sol.1, round p.angle⟩
    else ⟨sol.1, p.angle, sol.2, false, round sol.1, round p.angle⟩

/-- One FLIGHT-phase frame of the render loop's physics (lines 355-364):
`vSq = state.vel.lengthSq()` (all three components), same drag, wind and
gravity terms, velocity updated before `pos.add(vel * dt)`. -/
def animStep (p : LauncherSpec) (s : Vec3 × Vec3) : Vec3 × Vec3 :=
  let vSq := s.2.x ^ 2 + s.2.y ^ 2 + s.2.z ^ 2
  let v := Real.sqrt vSq
  let Fd := 0.5 * 1.225 * vSq * p.drag * 0.05
  let ax := -(Fd * (s.2.x / v) + p.wind) / p.projMass
  let ay := -(Fd * (s.2.y / v)) / p.projMass - 9.81
  let vel2 : Vec3 := ⟨s.2.x + ax * simDt, s.2.y + ay * simDt, s.2.z⟩
  (⟨s.1.x + vel2.x * simDt, s.1.y + vel2.y * simDt, s.1.z + vel2.z * simDt⟩, vel2)

/-- The render loop's impact detection (lines 366-370) folded into the same
fuel-indexed shape as `simGo`: step each frame, report `state.pos.x` at the
first frame whose `pos.y ≤ 0`. -/
def animGoX (p : LauncherSpec) : ℕ → Vec3 × Vec3 → ℝ
  | 0, s => s.1.x
  | n + 1, s =>
    let s2 := animStep p s
    if s2.1.y ≤ 0 then s2.1.x else animGoX p n s2

/-- Embed a planar state into the render loop's 3D state (`z = 0`, as set by
`calculateLaunchVector` and preserved by the loop). -/
def embed3 (s : Vec2 × Vec2) : Vec3 × Vec3 :=
  (⟨s.1.x, s.1.y, 0⟩, ⟨s.2.x, s.2.y, 0⟩)

/-! ## Toolbox: the integrator as iterates of `flightStep` -/

lemma simGo_succ (p : LauncherSpec) (n : ℕ) (pos vel : Vec2) :
    simGo p (n + 1) pos vel =
      if (flightStep p (pos, vel)).1.y ≤ 0 then (flightStep p (pos, vel)).1.x
      else simGo p n (flightStep p (pos, vel)).1 (flightStep p (pos, vel)).2 := rfl

/-- The loop of `simulateFlightPath` returns the horizontal position of the
first step whose vertical position is `≤ 0`, or — when no step within the
budget crosses the ground — the horizontal position after the last step. -/
lemma simGo_char (p : LauncherSpec) :
    ∀ (fuel : ℕ) (s : Vec2 × Vec2),
      (∃ N, 1 ≤ N ∧ N ≤ fuel ∧ ((flightStep p)^[N] s).1.y ≤ 0 ∧
        (∀ m, 1 ≤ m → m < N → 0 < ((flightStep p)^[m] s).1.y) ∧
        simGo p fuel s.1 s.2 = ((flightStep p)^[N] s).1.x) ∨
      ((∀ m, 1 ≤ m → m ≤ fuel → 0 < ((flightStep p)^[m] s).1.y) ∧
        simGo p fuel s.1 s.2 = ((flightStep p)^[fuel] s).1.x) := by
  intro fuel
  induction fuel with
  | zero =>
    intro s
    exact Or.inr ⟨fun m h1 h2 => absurd (Nat.le_zero.mp h2) (by omega), rfl⟩
  | succ n ih =>
    intro s
    rw [simGo_succ]
    by_cases h : (flightStep p (s.1, s.2)).1.y ≤ 0
    · refine Or.inl ⟨1, le_refl 1, by omega, ?_, ?_, ?_⟩
      · simpa [Function.iterate_one] using h
      · intro m h1 h2; omega
      · simp [h, Function.iterate_one]
    · have hpos1 : 0 < ((flightStep p)^[1] s).1.y := by
        simpa [Function.iterate_one] using lt_of_not_le h
      rw [if_neg h]
      rcases ih (flightStep p s) with ⟨N, h1, h2, h3, h4, h5⟩ | ⟨hpos, hres⟩
      · refine Or.inl ⟨N + 1, by omega, by omega, ?_, ?_, ?_⟩
        · rwa [Function.iterate_succ_apply]
        · intro m hm1 hm2
          match m, hm1 with
          | 1, _ => exact hpos1
          | (m' + 2), _ =>
            rw [Function.iterate_succ_apply]
            exact h4 (m' + 1) (by omega) (by omega)
        · rw [Function.iterate_succ_apply]
          exact h5
      · refine Or.inr ⟨?_, ?_⟩
        · intro m hm1 hm2
          match m, hm1 with
          | 1, _ => exact hpos1
          | (m' + 2), _ =>
            rw [Function.iterate_succ_apply]
            exact hpos (m' + 1) (by omega) (by omega)
        · rw [Function.iterate_succ_apply]
          exact hres

/-- If step `N` is the first ground crossing within the budget, the loop
returns the horizontal position at step `N`. -/
lemma simGo_eq_of_cross (p : LauncherSpec) (s : Vec2 × Vec2) (fuel N : ℕ)
    (h1 : 1 ≤ N) (h2 : N ≤ fuel) (h3 : ((flightStep p)^[N] s).1.y ≤ 0)
    (h4 : ∀ m, 1 ≤ m → m < N → 0 < ((flightStep p)^[m] s).1.y) :
    simGo p fuel s.1 s.2 = ((flightStep p)^[N] s).1.x := by
  rcases simGo_char p fuel s with ⟨M, hm1, hm2, hm3, hm4, hm5⟩ | ⟨hpos, hres⟩
  · have hMN : M = N := by
      rcases lt_trichotomy M N with hlt | heq | hgt
      · exact absurd hm3 (not_le.mpr (h4 M hm1 hlt))
      · exact heq
      · exact absurd h3 (not_le.mpr (hm4 N h1 hgt))
    rw [hm5, hMN]
  · exact absurd h3 (not_le.mpr (hpos N h1 h2))

/-- If no step within the budget crosses the ground, the loop returns the
horizontal position after the last step. -/
lemma simGo_eq_of_noCross (p : LauncherSpec) (s : Vec2 × Vec2) (fuel : ℕ)
    (h : ∀ m, 1 ≤ m → m ≤ fuel → 0 < ((flightStep p)^[m] s).1.y) :
    simGo p fuel s.1 s.2 = ((flightStep p)^[fuel] s).1.x := by
  rcases simGo_char p fuel s with ⟨M, hm1, hm2, hm3, _, _⟩ | ⟨_, hres⟩
  · exact absurd hm3 (not_le.mpr (h M hm1 hm2))
  · exact hres

/-- With drag coefficient zero the flight iterates have an exact closed form:
horizontal velocity decays linearly under the constant wind force, vertical
velocity linearly under gravity, positions are the corresponding sums. -/
lemma dragFreeIter (p : LauncherSpec) (hd : p.drag = 0) (s : Vec2 × Vec2) :
    ∀ n : ℕ,
      (flightStep p)^[n] s =
        (⟨s.1.x + n * simDt * s.2.x - p.wind / p.projMass * simDt ^ 2 * (n * (n + 1)) / 2,
          s.1.y + n * simDt * s.2.y - 9.81 * simDt ^ 2 * (n * (n + 1)) / 2⟩,
         ⟨s.2.x - p.wind / p.projMass * simDt * n, s.2.y - 9.81 * simDt * n⟩) := by
  intro n
  induction n with
  | zero =>
    simp [Function.iterate_zero]
  | succ n ih =>
    rw [Function.iterate_succ_apply', ih]
    show flightStep p _ = _
    unfold flightStep
    rw [hd]
    simp only [Prod.mk.injEq, Vec2.mk.injEq]
    push_cast
    constructor
    · constructor <;> ring
    · constructor <;> ring

/-! ## Toolbox: the inner binary search as a fold over its visited midpoints -/

lemma innerLoop_eq_foldl (p : LauncherSpec) (a : ℝ) :
    ∀ (n : ℕ) (mn mx : ℝ) (best : Option (ℝ × ℝ)),
      innerLoop p a n mn mx best = (innerPath p a n mn mx).foldl (bestUpd p a) best := by
  intro n
  induction n with
  | zero => intro mn mx best; rfl
  | succ n ih =>
    intro mn mx best
    show innerLoop p a (n + 1) mn mx best = _
    by_cases h : 0 < evalErrAt p a ((mn + mx) / 2)
    · simp only [innerLoop, innerPath, if_pos h, List.foldl_cons]
      exact ih mn ((mn + mx) / 2) _
    · simp only [innerLoop, innerPath, if_neg h, List.foldl_cons]
      exact ih ((mn + mx) / 2) mx _

lemma innerPath_length (p : LauncherSpec) (a : ℝ) :
    ∀ (n : ℕ) (mn mx : ℝ), (innerPath p a n mn mx).length = n := by
  intro n
  induction n with
  | zero => intro mn mx; rfl
  | succ n ih =>
    intro mn mx
    by_cases h : 0 < evalErrAt p a ((mn + mx) / 2) <;>
      simp [innerPath, h, ih]

lemma innerPath_bounds (p : LauncherSpec) (a : ℝ) :
    ∀ (n : ℕ) (mn mx : ℝ), mn < mx →
      ∀ m ∈ innerPath p a n mn mx, mn < m ∧ m < mx := by
  intro n
  induction n with
  | zero => intro mn mx _ m hm; exact absurd hm (List.not_mem_nil m)
  | succ n ih =>
    intro mn mx hlt m hm
    have hmid1 : mn < (mn + mx) / 2 := by linarith
    have hmid2 : (mn + mx) / 2 < mx := by linarith
    by_cases h : 0 < evalErrAt p a ((mn + mx) / 2)
    · simp only [innerPath, if_pos h, List.mem_cons] at hm
      rcases hm with rfl | hm
      · exact ⟨hmid1, hmid2⟩
      · have := ih mn ((mn + mx) / 2) hmid1 m hm
        exact ⟨this.1, lt_trans this.2 hmid2⟩
    · simp only [innerPath, if_neg h, List.mem_cons] at hm
      rcases hm with rfl | hm
      · exact ⟨hmid1, hmid2⟩
      · have := ih ((mn + mx) / 2) mx hmid2 m hm
        exact ⟨lt_trans hmid1 this.1, this.2⟩

/-- Folding the best-seen update from an initialised accumulator returns the
minimum of the accumulator and all evaluated errors, attained either at the
accumulator or at one of the list elements. -/
lemma foldl_bestUpd_some (p : LauncherSpec) (a : ℝ) :
    ∀ (l : List ℝ) (b : ℝ × ℝ),
      ∃ t e, l.foldl (bestUpd p a) (some b) = some (t, e) ∧ e ≤ b.2 ∧
        (∀ m ∈ l, e ≤ |evalErrAt p a m|) ∧
        ((t, e) = b ∨ ∃ m ∈ l, t = m ∧ e = |evalErrAt p a m|) := by
  intro l
  induction l with
  | nil =>
    intro b
    exact ⟨b.1, b.2, rfl, le_refl _, fun m hm => absurd hm (List.not_mem_nil m),
      Or.inl rfl⟩
  | cons m l ih =>
    intro b
    by_cases h : |evalErrAt p a m| < b.2
    · have hstep : bestUpd p a (some b) m = some (m, |evalErrAt p a m|) := by
        simp [bestUpd, h]
      rcases ih (m, |evalErrAt p a m|) with ⟨t, e, he, hle, hall, hatt⟩
      refine ⟨t, e, ?_, le_of_lt (lt_of_le_of_lt hle h), ?_, ?_⟩
      · rw [List.foldl_cons, hstep]; exact he
      · intro m' hm'
        rcases List.mem_cons.mp hm' with rfl | hm'
        · exact hle
        · exact hall m' hm'
      · rcases hatt with heq | ⟨m', hm', h1, h2⟩
        · exact Or.inr ⟨m, List.mem_cons_self m l, congrArg Prod.fst heq,
            congrArg Prod.snd heq⟩
        · exact Or.inr ⟨m', List.mem_cons_of_mem m hm', h1, h2⟩
    · have hstep : bestUpd p a (some b) m = some b := by
        simp [bestUpd, h]
      rcases ih b with ⟨t, e, he, hle, hall, hatt⟩
      refine ⟨t, e, ?_, hle, ?_, ?_⟩
      · rw [List.foldl_cons, hstep]; exact he
      · intro m' hm'
        rcases List.mem_cons.mp hm' with rfl | hm'
        · exact le_trans hle (not_lt.mp h)
        · exact hall m' hm'
      · rcases hatt with heq | ⟨m', hm', h1, h2⟩
        · exact Or.inl heq
        · exact Or.inr ⟨m', List.mem_cons_of_mem m hm', h1, h2⟩

/-- Folding the best-seen update from the uninitialised (`Infinity`)
accumulator over a nonempty midpoint list returns the midpoint of smallest
absolute error. -/
lemma foldl_bestUpd_none (p : LauncherSpec) (a : ℝ) (m : ℝ) (l : List ℝ) :
    ∃ t e, (m :: l).foldl (bestUpd p a) none = some (t, e) ∧
      (∀ m' ∈ m :: l, e ≤ |evalErrAt p a m'|) ∧
      (∃ m' ∈ m :: l, t = m' ∧ e = |evalErrAt p a m'|) := by
  have hstep : bestUpd p a none m = some (m, |evalErrAt p a m|) := rfl
  rcases foldl_bestUpd_some p a l (m, |evalErrAt p a m|) with ⟨t, e, he, hle, hall, hatt⟩
  refine ⟨t, e, ?_, ?_, ?_⟩
  · rw [List.foldl_cons, hstep]; exact he
  · intro m' hm'
    rcases List.mem_cons.mp hm' with rfl | hm'
    · exact hle
    · exact hall m' hm'
  · rcases hatt with heq | ⟨m', hm', h1, h2⟩
    · exact ⟨m, List.mem_cons_self m l, congrArg Prod.fst heq, congrArg Prod.snd heq⟩
    · exact ⟨m', List.mem_cons_of_mem m hm', h1, h2⟩

/-- `solveTensionForAngle` always returns `some` pair: the returned stiffness
is one of the 40 visited midpoints, its error is minimal among all 40
evaluations, and it lies strictly inside the bracket `(100, 150000)`. -/
lemma solveTension_spec (p : LauncherSpec) (a : ℝ) :
    ∃ t e, solveTensionForAngle p a = some (t, e) ∧
      (∀ m ∈ innerPath p a 40 100 150000, e ≤ |evalErrAt p a m|) ∧
      (∃ m ∈ innerPath p a 40 100 150000, t = m ∧ e = |evalErrAt p a m|) ∧
      100 < t ∧ t < 150000 := by
  have hlen : (innerPath p a 40 100 150000).length = 40 := innerPath_length p a 40 100 150000
  rcases hpath : innerPath p a 40 100 150000 with _ | ⟨m, l⟩
  · rw [hpath] at hlen; simp at hlen
  · rcases foldl_bestUpd_none p a m l with ⟨t, e, he, hall, m', hm', h1, h2⟩
    have hsolve : solveTensionForAngle p a = some (t, e) := by
      rw [solveTensionForAngle, innerLoop_eq_foldl, hpath]; exact he
    have hbounds := innerPath_bounds p a 40 100 150000 (by norm_num) t
      (by rw [hpath]; rw [h1]; exact hm')
    exact ⟨t, e, hsolve, hall, ⟨m', hm', h1, h2⟩, hbounds.1, hbounds.2⟩

/-- The sweep fold keeps the candidate of smallest error: its error is at most
the initial error and at most every attempted angle's error, and the result is
either the initial accumulator or one of the attempts. -/
lemma sweepFold_char (p : LauncherSpec) :
    ∀ (l : List ℝ) (init : (ℝ × ℝ) × ℝ),
      (sweepFold p init l).1.2 ≤ init.1.2 ∧
      (∀ a ∈ l, ∀ te, solveTensionForAngle p a = some te → (sweepFold p init l).1.2 ≤ te.2) ∧
      (sweepFold p init l = init ∨
        ∃ a ∈ l, ∃ te, solveTensionForAngle p a = some te ∧ sweepFold p init l = (te, a)) := by
  intro l
  induction l with
  | nil =>
    intro init
    exact ⟨le_refl _, fun a ha => absurd ha (List.not_mem_nil a), Or.inl rfl⟩
  | cons a l ih =>
    intro init
    rcases hs : solveTensionForAngle p a with _ | te
    · have hstep : sweepFold p init (a :: l) = sweepFold p init l := by
        simp only [sweepFold, List.foldl_cons, hs]
      rcases ih init with ⟨h1, h2, h3⟩
      rw [hstep]
      refine ⟨h1, ?_, ?_⟩
      · intro a' ha' te' hte'
        rcases List.mem_cons.mp ha' with rfl | ha'
        · rw [hs] at hte'; exact absurd hte' (by simp)
        · exact h2 a' ha' te' hte'
      · rcases h3 with heq | ⟨a', ha', te', h4, h5⟩
        · exact Or.inl heq
        · exact Or.inr ⟨a', List.mem_cons_of_mem a ha', te', h4, h5⟩
    · by_cases hlt : te.2 < init.1.2
      · have hstep : sweepFold p init (a :: l) = sweepFold p (te, a) l := by
          simp only [sweepFold, List.foldl_cons, hs, if_pos hlt]
        rcases ih (te, a) with ⟨h1, h2, h3⟩
        rw [hstep]
        refine ⟨le_of_lt (lt_of_le_of_lt h1 hlt), ?_, ?_⟩
        · intro a' ha' te' hte'
          rcases List.mem_cons.mp ha' with rfl | ha'
          · rw [hs] at hte'
            injection hte' with hte'
            rw [← hte']; exact h1
          · exact h2 a' ha' te' hte'
        · rcases h3 with heq | ⟨a', ha', te', h4, h5⟩
          · exact Or.inr ⟨a, List.mem_cons_self a l, te, hs, heq⟩
          · exact Or.inr ⟨a', List.mem_cons_of_mem a ha', te', h4, h5⟩
      · have hstep : sweepFold p init (a :: l) = sweepFold p init l := by
          simp only [sweepFold, List.foldl_cons, hs, if_neg hlt]
        rcases ih init with ⟨h1, h2, h3⟩
        rw [hstep]
        refine ⟨h1, ?_, ?_⟩
        · intro a' ha' te' hte'
          rcases List.mem_cons.mp ha' with rfl | ha'
          · rw [hs] at hte'
            injection hte' with hte'
            rw [← hte']; exact le_trans h1 (not_lt.mp hlt)
          · exact h2 a' ha' te' hte'
        · rcases h3 with heq | ⟨a', ha', te', h4, h5⟩
          · exact Or.inl heq
          · exact Or.inr ⟨a', List.mem_cons_of_mem a ha', te', h4, h5⟩

/-- `Math.round` of a value strictly inside `(100, 150000)` stays inside
`[100, 150000]`. -/
lemma round_bracket {x : ℝ} (h1 : 100 < x) (h2 : x < 150000) :
    (100 : ℤ) ≤ round x ∧ round x ≤ 150000 := by
  rw [round_eq]
  constructor
  · apply Int.le_floor.mpr
    push_cast
    linarith
  · have hf : (⌊x + 1 / 2⌋ : ℝ) ≤ x + 1 / 2 := Int.floor_le _
    have hlt : (⌊x + 1 / 2⌋ : ℝ) < ((150001 : ℤ) : ℝ) := by push_cast; linarith
    exact Int.lt_add_one_iff.mp (by exact_mod_cast hlt)

/-- The `specs` initial values (lines 43-52). -/
def defaultSpecs : LauncherSpec :=
  ⟨4000, 6, 25, 10, 45, 150, 0, 0.05⟩

/-- A zero-velocity state makes `simGoChecked` return `none` (the JavaScript
computation produces `NaN` at the first step and it propagates). -/
lemma simGoChecked_zeroVel (p : LauncherSpec) (pos : Vec2) :
    ∀ n : ℕ, 0 < n → simGoChecked p n pos ⟨0, 0⟩ = none := by
  intro n hn
  match n, hn with
  | m + 1, _ =>
    have hzero : flightStepChecked p (pos, ⟨0, 0⟩) = none := by
      unfold flightStepChecked
      rw [if_pos]
      show Real.sqrt ((0 : ℝ) ^ 2 + (0 : ℝ) ^ 2) = 0
      norm_num
    show (match flightStepChecked p (pos, ⟨0, 0⟩) with
          | none => none
          | some s => if s.1.y ≤ 0 then some s.1.x else simGoChecked p m s.1 s.2) = none
    rw [hzero]

/-! ## Claim theorems -/

/-- C1: for every input spec and candidate angle, `solveTensionForAngle`
visits exactly 40 bracket midpoints (starting from the fixed bracket
`[100, 150000]`, narrowing toward the target by the sign of the error) and
returns the `(stiffness, |error|)` pair of smallest absolute error among all
40 midpoint evaluations — attained at one of the midpoints, not merely the
final one. -/
theorem c1_inner_search_best_of_forty_midpoints (p : LauncherSpec) (a : ℝ) :
    ∃ t e, solveTensionForAngle p a = some (t, e) ∧
      (innerPath p a 40 100 150000).length = 40 ∧
      (∀ m ∈ innerPath p a 40 100 150000, e ≤ |evalErrAt p a m|) ∧
      ∃ m ∈ innerPath p a 40 100 150000, t = m ∧ e = |evalErrAt p a m| := by
  rcases solveTension_spec p a with ⟨t, e, hs, hall, hatt, _, _⟩
  exact ⟨t, e, hs, innerPath_length p a 40 100 150000, hall, hatt⟩

/-- C9: the stiffness returned by the inner search is always one of the
evaluated bracket midpoints, hence lies strictly inside `(100, 150000)`
(the `Infinity`-initialised best error guarantees the search never returns
its initial `bestT = 100`), and the integer-rounded stiffness the optimizer
commits always lies within `[100, 150000]`. -/
theorem c9_committed_stiffness_in_bracket (p : LauncherSpec) :
    (∀ a, ∃ t e, solveTensionForAngle p a = some (t, e) ∧
      (∃ m ∈ innerPath p a 40 100 150000, t = m) ∧ 100 < t ∧ t < 150000) ∧
    (100 : ℤ) ≤ (runOptimizer p).commitT ∧ (runOptimizer p).commitT ≤ 150000 := by
  constructor
  · intro a
    rcases solveTension_spec p a with ⟨t, e, hs, _, ⟨m, hm, h1, _⟩, hb1, hb2⟩
    exact ⟨t, e, hs, ⟨m, hm, h1⟩, hb1, hb2⟩
  · rcases solveTension_spec p p.angle with ⟨t, e, hs, _, _, hb1, hb2⟩
    have hopt : runOptimizer p =
        (if 1 < e then
          (let best := sweepFold p ((t, e), p.angle) sweepAngles
           if best.1.2 < 2 then
             ⟨best.1.1, best.2, best.1.2, true, round best.1.1, round best.2⟩
           else ⟨t, p.angle, e, false, round t, round p.angle⟩)
         else ⟨t, p.angle, e, false, round t, round p.angle⟩) := by
      rw [runOptimizer, hs]
    rw [hopt]
    by_cases h1 : 1 < e
    · rw [if_pos h1]
      rcases sweepFold_char p sweepAngles ((t, e), p.angle) with ⟨_, _, hres⟩
      by_cases h2 : (sweepFold p ((t, e), p.angle) sweepAngles).1.2 < 2
      · simp only [if_pos h2]
        rcases hres with heq | ⟨a', _, te, hte, heq⟩
        · rw [heq]
          exact round_bracket hb1 hb2
        · rcases solveTension_spec p a' with ⟨t', e', hs', _, _, hb1', hb2'⟩
          rw [hs'] at hte
          have hte2 : te = (t', e') := by injection hte with h; exact h.symm
          rw [heq, hte2]
          exact round_bracket hb1' hb2'
      · simp only [if_neg h2]
        exact round_bracket hb1 hb2
    · rw [if_neg h1]
      exact round_bracket hb1 hb2

/-- C5: the integrator always terminates with a value: each step advances
velocity by the current-step acceleration and then position by the updated
velocity (Euler-Cromer), and the returned range is the horizontal position of
the first step whose vertical position is `≤ 0`, or — when no crossing occurs
within the 5000-step budget — the horizontal position after the last step
(soft failure, no exception). -/
theorem c5_integrator_first_crossing_or_soft_failure (p : LauncherSpec) (pos vel : Vec2) :
    ((flightStep p (pos, vel)).1.x = pos.x + (flightStep p (pos, vel)).2.x * simDt ∧
     (flightStep p (pos, vel)).1.y = pos.y + (flightStep p (pos, vel)).2.y * simDt) ∧
    ((∃ N, 1 ≤ N ∧ N ≤ 5000 ∧ ((flightStep p)^[N] (pos, vel)).1.y ≤ 0 ∧
        (∀ m, 1 ≤ m → m < N → 0 < ((flightStep p)^[m] (pos, vel)).1.y) ∧
        simulateFlightPath pos vel p = ((flightStep p)^[N] (pos, vel)).1.x) ∨
      ((∀ m, 1 ≤ m → m ≤ 5000 → 0 < ((flightStep p)^[m] (pos, vel)).1.y) ∧
        simulateFlightPath pos vel p = ((flightStep p)^[5000] (pos, vel)).1.x)) :=
  ⟨⟨rfl, rfl⟩, simGo_char p 5000 (pos, vel)⟩

/-- C3 counterexample: the integrator's fixed time step is the literal
`0.016`, which is not `1/60` (`1/60 = 0.01666…`). -/
theorem c3_counterexample_step_not_one_sixtieth : simDt ≠ 1 / 60 := by
  rw [simDt]
  norm_num

/-- C3 amended: the flight integrator uses a fixed time step of exactly
`0.016` s and is bounded to a maximum of 5000 steps: for every start state
and spec the returned range is the horizontal position of one of the first
5000 iterates of the step function. -/
theorem c3_amended_fixed_step_and_budget :
    simDt = 0.016 ∧ simMaxSteps = 5000 ∧
    ∀ (p : LauncherSpec) (pos vel : Vec2),
      ∃ N ≤ 5000, simulateFlightPath pos vel p = ((flightStep p)^[N] (pos, vel)).1.x := by
  refine ⟨rfl, rfl, fun p pos vel => ?_⟩
  rcases simGo_char p 5000 (pos, vel) with ⟨N, _, h2, _, _, h5⟩ | ⟨_, h⟩
  · exact ⟨N, h2, h5⟩
  · exact ⟨5000, le_refl _, h⟩

/-- At any state whose speed is nonzero, the checked (JavaScript-`NaN`-aware)
step is defined and agrees with the total-real-arithmetic step; the fault is
confined to exactly-zero speed. -/
lemma flightStepChecked_of_speed_ne_zero (p : LauncherSpec) (s : Vec2 × Vec2)
    (h : s.2.x ^ 2 + s.2.y ^ 2 ≠ 0) :
    flightStepChecked p s = some (flightStep p s) := by
  unfold flightStepChecked
  rw [if_neg]
  intro hc
  apply h
  have h1 : s.2.x ^ 2 + s.2.y ^ 2 ≤ 0 := Real.sqrt_eq_zero'.mp hc
  nlinarith [sq_nonneg s.2.x, sq_nonneg s.2.y]

/-- C2: evaluating the integrator at the failing input.  The code does not
special-case zero speed: at a start state with velocity exactly `(0, 0)` the
drag decomposition computes `vel.x / v = 0/0` (`NaN` in the JavaScript
source, modelled as `none`), the `NaN` propagates, and the integrator's
result is not a well-defined number — for the source's default spec and for
every spec and start position. -/
theorem c2_zero_speed_result_undefined :
    simulateFlightPathChecked ⟨0, 10⟩ ⟨0, 0⟩ defaultSpecs = none ∧
    ∀ (p : LauncherSpec) (pos : Vec2), simulateFlightPathChecked pos ⟨0, 0⟩ p = none :=
  ⟨simGoChecked_zeroVel defaultSpecs ⟨0, 10⟩ 5000 (by norm_num),
   fun p pos => simGoChecked_zeroVel p pos 5000 (by norm_num)⟩

/-- C8: for every spec with nonnegative arm length, the release position's
`y`-coordinate lies between pivot height `5.5` minus the arm length and `5.5`
plus the arm length (the release point is on the arm-length circle around the
pivot); the release position is placed at the fixed angular offset `−π/2`
(i.e. `angle − 90°`) of the configured launch angle, while the velocity
direction uses the launch angle itself. -/
theorem c8_release_position_on_arm_circle (p : LauncherSpec) (hL : 0 ≤ p.armLength) :
    (5.5 - p.armLength ≤ (calculateLaunchVector p).pos.y ∧
     (calculateLaunchVector p).pos.y ≤ 5.5 + p.armLength) ∧
    (calculateLaunchVector p).pos =
      ⟨0 + Real.cos (p.angle * (Real.pi / 180) - Real.pi / 2) * p.armLength,
       5.5 + Real.sin (p.angle * (Real.pi / 180) - Real.pi / 2) * p.armLength⟩ ∧
    ∃ vMag, 0 ≤ vMag ∧ (calculateLaunchVector p).vel =
      ⟨Real.cos (p.angle * (Real.pi / 180)) * vMag,
       Real.sin (p.angle * (Real.pi / 180)) * vMag⟩ := by
  have hoff : (p.angle - 90) * (Real.pi / 180) = p.angle * (Real.pi / 180) - Real.pi / 2 := by
    ring
  refine ⟨?_, ?_, ?_⟩
  · constructor
    · show 5.5 - p.armLength ≤ 5.5 + Real.sin ((p.angle - 90) * (Real.pi / 180)) * p.armLength
      nlinarith [Real.neg_one_le_sin ((p.angle - 90) * (Real.pi / 180))]
    · show 5.5 + Real.sin ((p.angle - 90) * (Real.pi / 180)) * p.armLength ≤ 5.5 + p.armLength
      nlinarith [Real.sin_le_one ((p.angle - 90) * (Real.pi / 180))]
  · show (⟨0 + Real.cos ((p.angle - 90) * (Real.pi / 180)) * p.armLength,
          5.5 + Real.sin ((p.angle - 90) * (Real.pi / 180)) * p.armLength⟩ : Vec2) = _
    rw [hoff]
  · refine ⟨Real.sqrt ((2 * (0.5 * p.tension * (2.3 : ℝ) ^ 2 * 0.4)) /
      ((p.armMass * p.armLength ^ 2) / 3 + p.projMass * p.armLength ^ 2)) * p.armLength,
      mul_nonneg (Real.sqrt_nonneg _) hL, rfl⟩

/-- Witness for `c8_release_position_on_arm_circle` at the source's default
spec. -/
theorem c8_release_position_on_arm_circle_witness :
    (0 : ℝ) ≤ defaultSpecs.armLength ∧
    (5.5 - defaultSpecs.armLength ≤ (calculateLaunchVector defaultSpecs).pos.y ∧
     (calculateLaunchVector defaultSpecs).pos.y ≤ 5.5 + defaultSpecs.armLength) :=
  ⟨by norm_num [defaultSpecs],
   (c8_release_position_on_arm_circle defaultSpecs (by norm_num [defaultSpecs])).1⟩

/-! ## Toolbox: the render loop's FLIGHT step versus the integrator's step -/

/-- On planar states (`z = 0`, as every release state is) the render loop's
per-frame physics is the integrator's step function. -/
lemma animStep_embed (p : LauncherSpec) (s : Vec2 × Vec2) :
    animStep p (embed3 s) = embed3 (flightStep p s) := by
  unfold animStep flightStep embed3
  simp only [Prod.mk.injEq, Vec3.mk.injEq, Vec2.mk.injEq]
  norm_num

lemma animIter_embed (p : LauncherSpec) (s : Vec2 × Vec2) :
    ∀ n : ℕ, (animStep p)^[n] (embed3 s) = embed3 ((flightStep p)^[n] s) := by
  intro n
  induction n with
  | zero => rfl
  | succ n ih =>
    rw [Function.iterate_succ_apply', Function.iterate_succ_apply', ih, animStep_embed]

lemma animGoX_embed (p : LauncherSpec) :
    ∀ (fuel : ℕ) (s : Vec2 × Vec2), animGoX p fuel (embed3 s) = simGo p fuel s.1 s.2 := by
  intro fuel
  induction fuel with
  | zero => intro s; rfl
  | succ n ih =>
    intro s
    show (let s2 := animStep p (embed3 s);
          if s2.1.y ≤ 0 then s2.1.x else animGoX p n s2) = _
    rw [simGo_succ]
    simp only [animStep_embed]
    by_cases h : (flightStep p (s.1, s.2)).1.y ≤ 0
    · simp only [embed3, if_pos h]
    · simp only [embed3, if_neg h]
      exact ih (flightStep p s)

/-- C10: the per-step physics performed by the render loop's FLIGHT phase is
the same step function as the integrator's: from an identical planar release
state and spec, the frame states are exactly the embedded integrator states at
every step, the impact detection reports the same horizontal distance for every
step budget, and in particular `simulateFlightPath` equals the render loop's
reported impact distance at the integrator's own budget. -/
theorem c10_render_loop_same_step_as_integrator (p : LauncherSpec) (pos vel : Vec2) :
    (∀ s : Vec2 × Vec2, animStep p (embed3 s) = embed3 (flightStep p s)) ∧
    (∀ n : ℕ, (animStep p)^[n] (embed3 (pos, vel)) = embed3 ((flightStep p)^[n] (pos, vel))) ∧
    (∀ fuel : ℕ, animGoX p fuel (embed3 (pos, vel)) = simGo p fuel pos vel) ∧
    simulateFlightPath pos vel p = animGoX p 5000 (embed3 (pos, vel)) := by
  refine ⟨animStep_embed p, animIter_embed p (pos, vel), ?_, ?_⟩
  · intro fuel
    exact animGoX_embed p fuel (pos, vel)
  · exact (animGoX_embed p 5000 (pos, vel)).symm

/-! ## Toolbox: positivity of a concave height profile between two indices -/

/-- A downward-opening quadratic in the step index that is positive at `1` and
at `M` is positive at every index in between (the discrete heights of a
drag-free trajectory have this shape). -/
lemma quadPosRange (y0 A B : ℝ) (hB : 0 ≤ B) (M : ℕ)
    (h1 : 0 < y0 + A - 2 * B)
    (h2 : 0 < y0 + A * M - B * M * (M + 1)) :
    ∀ m : ℕ, 1 ≤ m → m ≤ M → 0 < y0 + A * m - B * m * (m + 1) := by
  intro m hm1 hm2
  have hm1R : (1 : ℝ) ≤ (m : ℝ) := by exact_mod_cast hm1
  have hm2R : (m : ℝ) ≤ (M : ℝ) := by exact_mod_cast hm2
  rcases eq_or_lt_of_le hm1R with heq | hlt
  · rw [← heq]
    linarith [h1]
  · have hm0 : 0 < (m : ℝ) - 1 := by linarith
    have hMm : 0 ≤ (M : ℝ) - m := by linarith
    nlinarith [mul_pos hm0 h2, mul_nonneg hMm h1.le,
      mul_nonneg (mul_nonneg hB hm0.le) hMm, mul_nonneg hMm hm0.le]

/-- The spec used for the zero-drag round-trip check: the source defaults with
drag coefficient and wind set to zero. -/
def c7Specs : LauncherSpec :=
  ⟨4000, 6, 25, 10, 45, 150, 0, 0⟩

/-- C7: with drag coefficient 0 and wind 0, for the representative pair of
launch angle 45° and speed `8√2` m/s released at height `181/50` m, the
integrator's returned range equals the closed-form projectile range
`(v·cosθ/g)·(v·sinθ + √((v·sinθ)² + 2·g·y₀))` — the formula `v²·sin(2θ)/g`
adjusted for the release height — to within `1e-2` m (here: exactly). -/
theorem c7_zero_drag_matches_closed_form :
    |simulateFlightPath ⟨0, 181 / 50⟩
        ⟨8 * Real.sqrt 2 * Real.cos (Real.pi / 4), 8 * Real.sqrt 2 * Real.sin (Real.pi / 4)⟩
        c7Specs -
      8 * Real.sqrt 2 * Real.cos (Real.pi / 4) / 9.81 *
        (8 * Real.sqrt 2 * Real.sin (Real.pi / 4) +
          Real.sqrt ((8 * Real.sqrt 2 * Real.sin (Real.pi / 4)) ^ 2 + 2 * 9.81 * (181 / 50)))| ≤
      1 / 100 := by
  have hs2 : Real.sqrt 2 * Real.sqrt 2 = 2 := Real.mul_self_sqrt (by norm_num)
  have hvx : 8 * Real.sqrt 2 * Real.cos (Real.pi / 4) = 8 := by
    rw [Real.cos_pi_div_four, show (8 : ℝ) * Real.sqrt 2 * (Real.sqrt 2 / 2) =
      4 * (Real.sqrt 2 * Real.sqrt 2) by ring, hs2]
    norm_num
  have hvy : 8 * Real.sqrt 2 * Real.sin (Real.pi / 4) = 8 := by
    rw [Real.sin_pi_div_four, show (8 : ℝ) * Real.sqrt 2 * (Real.sqrt 2 / 2) =
      4 * (Real.sqrt 2 * Real.sqrt 2) by ring, hs2]
    norm_num
  rw [hvx, hvy]
  have hsq : Real.sqrt ((8 : ℝ) ^ 2 + 2 * 9.81 * (181 / 50)) = 11.62 := by
    rw [show ((8 : ℝ) ^ 2 + 2 * 9.81 * (181 / 50)) = 11.62 ^ 2 by norm_num]
    exact Real.sqrt_sq (by norm_num)
  rw [hsq]
  have hd : c7Specs.drag = 0 := rfl
  have hiter := dragFreeIter c7Specs hd (⟨0, 181 / 50⟩, ⟨8, 8⟩)
  have hy : ∀ m : ℕ, ((flightStep c7Specs)^[m] (⟨0, 181 / 50⟩, ⟨8, 8⟩)).1.y =
      181 / 50 + m * simDt * 8 - 9.81 * simDt ^ 2 * (m * (m + 1)) / 2 := by
    intro m
    rw [hiter m]
  have hcross : ((flightStep c7Specs)^[125] (⟨0, 181 / 50⟩, ⟨8, 8⟩)).1.y ≤ 0 := by
    rw [hy 125]
    norm_num [simDt]
  have hbefore : ∀ m, 1 ≤ m → m < 125 →
      0 < ((flightStep c7Specs)^[m] (⟨0, 181 / 50⟩, ⟨8, 8⟩)).1.y := by
    intro m h1 h2
    rw [hy m]
    have heq : (181 / 50 : ℝ) + m * simDt * 8 - 9.81 * simDt ^ 2 * (m * (m + 1)) / 2 =
        181 / 50 + simDt * 8 * m - 9.81 * simDt ^ 2 / 2 * m * (m + 1) := by
      ring
    rw [heq]
    exact quadPosRange (181 / 50) (simDt * 8) (9.81 * simDt ^ 2 / 2)
      (by norm_num [simDt]) 124 (by norm_num [simDt]) (by norm_num [simDt]) m h1 (by omega)
  have hrange := simGo_eq_of_cross c7Specs (⟨0, 181 / 50⟩, ⟨8, 8⟩) 5000 125
    (by norm_num) (by norm_num) hcross hbefore
  have hsim : simulateFlightPath ⟨0, 181 / 50⟩ ⟨8, 8⟩ c7Specs = 16 := by
    show simGo c7Specs 5000 ⟨0, 181 / 50⟩ ⟨8, 8⟩ = 16
    rw [show (⟨0, 181 / 50⟩ : Vec2) = ((⟨0, 181 / 50⟩, ⟨8, 8⟩) : Vec2 × Vec2).1 from rfl,
      show (⟨8, 8⟩ : Vec2) = ((⟨0, 181 / 50⟩, ⟨8, 8⟩) : Vec2 × Vec2).2 from rfl, hrange,
      hiter 125]
    show (0 : ℝ) + 125 * simDt * 8 -
        c7Specs.wind / c7Specs.projMass * simDt ^ 2 * (125 * (125 + 1)) / 2 = 16
    norm_num [simDt, c7Specs]
  rw [hsim]
  norm_num

/-! ## C6: stiffness monotonicity -/

/-- Core of the monotonicity argument: with zero drag and zero wind, starting
from the same position with componentwise larger (nonnegative-horizontal)
velocity never decreases the integrator's range. -/
lemma simGo_dragFree_mono (p : LauncherSpec) (hd : p.drag = 0) (hw : p.wind = 0)
    (pos v1 v2 : Vec2) (hvx1 : 0 ≤ v1.x) (hvxle : v1.x ≤ v2.x) (hvyle : v1.y ≤ v2.y) :
    simGo p 5000 pos v1 ≤ simGo p 5000 pos v2 := by
  have hy1 : ∀ m : ℕ, ((flightStep p)^[m] (pos, v1)).1.y =
      pos.y + m * simDt * v1.y - 9.81 * simDt ^ 2 * (m * (m + 1)) / 2 := by
    intro m; rw [dragFreeIter p hd (pos, v1) m]
  have hy2 : ∀ m : ℕ, ((flightStep p)^[m] (pos, v2)).1.y =
      pos.y + m * simDt * v2.y - 9.81 * simDt ^ 2 * (m * (m + 1)) / 2 := by
    intro m; rw [dragFreeIter p hd (pos, v2) m]
  have hx1 : ∀ m : ℕ, ((flightStep p)^[m] (pos, v1)).1.x = pos.x + m * simDt * v1.x := by
    intro m
    rw [dragFreeIter p hd (pos, v1) m]
    show pos.x + m * simDt * v1.x - p.wind / p.projMass * simDt ^ 2 * (m * (m + 1)) / 2 = _
    rw [hw]
    ring
  have hx2 : ∀ m : ℕ, ((flightStep p)^[m] (pos, v2)).1.x = pos.x + m * simDt * v2.x := by
    intro m
    rw [dragFreeIter p hd (pos, v2) m]
    show pos.x + m * simDt * v2.x - p.wind / p.projMass * simDt ^ 2 * (m * (m + 1)) / 2 = _
    rw [hw]
    ring
  have hyle : ∀ m : ℕ,
      ((flightStep p)^[m] (pos, v1)).1.y ≤ ((flightStep p)^[m] (pos, v2)).1.y := by
    intro m
    rw [hy1 m, hy2 m]
    have hstep : (m : ℝ) * simDt * v1.y ≤ m * simDt * v2.y := by
      apply mul_le_mul_of_nonneg_left hvyle
      exact mul_nonneg (Nat.cast_nonneg m) (by norm_num [simDt])
    linarith
  have hxcmp : ∀ m1 m2 : ℕ, m1 ≤ m2 →
      pos.x + m1 * simDt * v1.x ≤ pos.x + m2 * simDt * v2.x := by
    intro m1 m2 hm
    have hm' : (m1 : ℝ) ≤ m2 := by exact_mod_cast hm
    have h1 : (m1 : ℝ) * simDt ≤ m2 * simDt := by
      apply mul_le_mul_of_nonneg_right hm'
      norm_num [simDt]
    have h2 : (m1 : ℝ) * simDt * v1.x ≤ m2 * simDt * v2.x :=
      mul_le_mul h1 hvxle hvx1 (mul_nonneg (Nat.cast_nonneg m2) (by norm_num [simDt]))
    linarith
  rcases simGo_char p 5000 (pos, v1) with ⟨N1, h11, h12, h13, h14, h15⟩ | ⟨hpos1, hres1⟩
  · rcases simGo_char p 5000 (pos, v2) with ⟨N2, h21, h22, h23, h24, h25⟩ | ⟨hpos2, hres2⟩
    · have hNle : N1 ≤ N2 := by
        by_contra hcon
        push_neg at hcon
        have hgt := h14 N2 h21 hcon
        have hle := hyle N2
        linarith
      rw [h15, h25, hx1 N1, hx2 N2]
      exact hxcmp N1 N2 hNle
    · rw [h15, hres2, hx1 N1, hx2 5000]
      exact hxcmp N1 5000 h12
  · rcases simGo_char p 5000 (pos, v2) with ⟨N2, h21, h22, h23, _, _⟩ | ⟨hpos2, hres2⟩
    · have hgt := hpos1 N2 h21 h22
      have hle := hyle N2
      linarith
    · rw [hres1, hres2, hx1 5000, hx2 5000]
      exact hxcmp 5000 5000 (le_refl _)

/-- C6 amended: holding the launch angle (within the conventional range
`[10, 80]` degrees) and all other spec fields fixed, with wind speed 0 and
drag coefficient 0, increasing the stiffness never decreases the range
returned by `integrate(derive_release(...))`.  Both restrictions are forced:
the counterexample exhibits strict range decreases under nonzero wind with
zero drag and under nonzero drag with zero wind. -/
theorem c6_amended_range_monotone_in_stiffness (p : LauncherSpec) (k1 k2 : ℝ)
    (hd : p.drag = 0) (hw : p.wind = 0)
    (hang1 : 10 ≤ p.angle) (hang2 : p.angle ≤ 80)
    (hL : 0 < p.armLength) (hmA : 0 ≤ p.armMass) (hmP : 0 < p.projMass)
    (hk : k1 ≤ k2) :
    evalDistAt p p.angle k1 ≤ evalDistAt p p.angle k2 := by
  have hpi := Real.pi_pos
  have hIpos : 0 < (p.armMass * p.armLength ^ 2) / 3 + p.projMass * p.armLength ^ 2 := by
    have h1 : 0 < p.projMass * p.armLength ^ 2 := mul_pos hmP (by positivity)
    have h2 : 0 ≤ (p.armMass * p.armLength ^ 2) / 3 := by positivity
    linarith
  have hvMle : Real.sqrt ((2 * (0.5 * k1 * 2.3 ^ 2 * 0.4)) /
        ((p.armMass * p.armLength ^ 2) / 3 + p.projMass * p.armLength ^ 2)) * p.armLength ≤
      Real.sqrt ((2 * (0.5 * k2 * 2.3 ^ 2 * 0.4)) /
        ((p.armMass * p.armLength ^ 2) / 3 + p.projMass * p.armLength ^ 2)) * p.armLength := by
    apply mul_le_mul_of_nonneg_right _ hL.le
    apply Real.sqrt_le_sqrt
    rw [div_le_div_iff₀ hIpos hIpos]
    nlinarith [mul_nonneg (sub_nonneg.mpr hk) hIpos.le]
  have hvM1nn : 0 ≤ Real.sqrt ((2 * (0.5 * k1 * 2.3 ^ 2 * 0.4)) /
      ((p.armMass * p.armLength ^ 2) / 3 + p.projMass * p.armLength ^ 2)) * p.armLength :=
    mul_nonneg (Real.sqrt_nonneg _) hL.le
  have hcos : 0 < Real.cos (p.angle * (Real.pi / 180)) := by
    apply Real.cos_pos_of_mem_Ioo
    constructor
    · nlinarith
    · nlinarith
  have hsin : 0 ≤ Real.sin (p.angle * (Real.pi / 180)) := by
    apply Real.sin_nonneg_of_nonneg_of_le_pi
    · nlinarith
    · nlinarith
  exact simGo_dragFree_mono p hd hw _ _ _
    (mul_nonneg hcos.le hvM1nn)
    (mul_le_mul_of_nonneg_left hvMle hcos.le)
    (mul_le_mul_of_nonneg_left hvMle hsin)

/-- Witness for `c6_amended_range_monotone_in_stiffness` at the zero-drag
default spec and stiffnesses 1000 ≤ 2000. -/
theorem c6_amended_range_monotone_in_stiffness_witness :
    (c7Specs.drag = 0 ∧ c7Specs.wind = 0 ∧ 10 ≤ c7Specs.angle ∧ c7Specs.angle ≤ 80 ∧
      0 < c7Specs.armLength ∧ 0 ≤ c7Specs.armMass ∧ 0 < c7Specs.projMass ∧
      (1000 : ℝ) ≤ 2000) ∧
    evalDistAt c7Specs c7Specs.angle 1000 ≤ evalDistAt c7Specs c7Specs.angle 2000 :=
  ⟨⟨rfl, rfl, by norm_num [c7Specs], by norm_num [c7Specs], by norm_num [c7Specs],
    by norm_num [c7Specs], by norm_num [c7Specs], by norm_num⟩,
   c6_amended_range_monotone_in_stiffness c7Specs 1000 2000 rfl rfl
     (by norm_num [c7Specs]) (by norm_num [c7Specs]) (by norm_num [c7Specs])
     (by norm_num [c7Specs]) (by norm_num [c7Specs]) (by norm_num)⟩

/-! ## Toolbox: numeric trigonometry at 15 and 75 degrees -/

lemma sqrt_two_gt : 1.414213 < Real.sqrt 2 :=
  (Real.lt_sqrt (by norm_num)).mpr (by norm_num)

lemma sqrt_two_lt : Real.sqrt 2 < 1.414214 :=
  (Real.sqrt_lt' (by norm_num)).mpr (by norm_num)

lemma sqrt_six_gt : 2.449489 < Real.sqrt 6 :=
  (Real.lt_sqrt (by norm_num)).mpr (by norm_num)

lemma sqrt_six_lt : Real.sqrt 6 < 2.449490 :=
  (Real.sqrt_lt' (by norm_num)).mpr (by norm_num)

lemma sqrt_three_mul_sqrt_two : Real.sqrt 3 * Real.sqrt 2 = Real.sqrt 6 := by
  rw [← Real.sqrt_mul (by norm_num : (0 : ℝ) ≤ 3)]
  norm_num

lemma sin_pi_div_twelve_eq : Real.sin (Real.pi / 12) = (Real.sqrt 6 - Real.sqrt 2) / 4 := by
  rw [show (Real.pi / 12 : ℝ) = Real.pi / 3 - Real.pi / 4 by ring, Real.sin_sub,
    Real.sin_pi_div_three, Real.cos_pi_div_four, Real.cos_pi_div_three, Real.sin_pi_div_four,
    ← sqrt_three_mul_sqrt_two]
  ring

lemma cos_pi_div_twelve_eq : Real.cos (Real.pi / 12) = (Real.sqrt 6 + Real.sqrt 2) / 4 := by
  rw [show (Real.pi / 12 : ℝ) = Real.pi / 3 - Real.pi / 4 by ring, Real.cos_sub,
    Real.cos_pi_div_three, Real.cos_pi_div_four, Real.sin_pi_div_three, Real.sin_pi_div_four,
    ← sqrt_three_mul_sqrt_two]
  ring

/-- The release state written out: position at the release-side angle
`angle − 90°`, velocity at the launch angle with the energy-balance speed. -/
lemma calculateLaunchVector_eq (p : LauncherSpec) :
    calculateLaunchVector p =
      { pos := ⟨0 + Real.cos ((p.angle - 90) * (Real.pi / 180)) * p.armLength,
                5.5 + Real.sin ((p.angle - 90) * (Real.pi / 180)) * p.armLength⟩,
        vel := ⟨Real.cos (p.angle * (Real.pi / 180)) *
                  (Real.sqrt ((2 * (0.5 * p.tension * 2.3 ^ 2 * 0.4)) /
                      ((p.armMass * p.armLength ^ 2) / 3 + p.projMass * p.armLength ^ 2)) *
                    p.armLength),
                Real.sin (p.angle * (Real.pi / 180)) *
                  (Real.sqrt ((2 * (0.5 * p.tension * 2.3 ^ 2 * 0.4)) /
                      ((p.armMass * p.armLength ^ 2) / 3 + p.projMass * p.armLength ^ 2)) *
                    p.armLength)⟩ } := rfl

/-- With zero drag, if step `N ≤ 5000` is the first index at which the
closed-form height is nonpositive, the integrator returns the closed-form
horizontal position at step `N`. -/
lemma simGo_dragFree_cross (p : LauncherSpec) (hd : p.drag = 0) (pos vel : Vec2) (N : ℕ)
    (hN1 : 1 ≤ N) (hN2 : N ≤ 5000)
    (hcross : pos.y + N * simDt * vel.y - 9.81 * simDt ^ 2 * (N * (N + 1)) / 2 ≤ 0)
    (hbefore : ∀ m : ℕ, 1 ≤ m → m < N →
      0 < pos.y + m * simDt * vel.y - 9.81 * simDt ^ 2 * (m * (m + 1)) / 2) :
    simGo p 5000 pos vel = pos.x + N * simDt * vel.x -
      p.wind / p.projMass * simDt ^ 2 * (N * (N + 1)) / 2 := by
  have hy : ∀ m : ℕ, ((flightStep p)^[m] (pos, vel)).1.y =
      pos.y + m * simDt * vel.y - 9.81 * simDt ^ 2 * (m * (m + 1)) / 2 := by
    intro m; rw [dragFreeIter p hd (pos, vel) m]
  have hres := simGo_eq_of_cross p (pos, vel) 5000 N hN1 hN2
    (by rw [hy N]; exact hcross)
    (fun m h1 h2 => by rw [hy m]; exact hbefore m h1 h2)
  rw [hres, dragFreeIter p hd (pos, vel) N]

/-- One integration step evaluated exactly at a release state: launched at
speed `v` in direction `(c, s)` with `c² + s² = 1`, the speed magnitude is
exactly `v`, so the square root and the drag decomposition evaluate in closed
form. -/
lemma flightStep_eval (p : LauncherSpec) (pos : Vec2) (c s v : ℝ) (hv : 0 < v)
    (hcs : c ^ 2 + s ^ 2 = 1) :
    flightStep p (pos, ⟨c * v, s * v⟩) =
      (⟨pos.x + (c * v + -(0.5 * 1.225 * v ^ 2 * p.drag * 0.05 * c + p.wind) /
            p.projMass * simDt) * simDt,
        pos.y + (s * v + (-(0.5 * 1.225 * v ^ 2 * p.drag * 0.05 * s) /
            p.projMass - 9.81) * simDt) * simDt⟩,
       ⟨c * v + -(0.5 * 1.225 * v ^ 2 * p.drag * 0.05 * c + p.wind) /
          p.projMass * simDt,
        s * v + (-(0.5 * 1.225 * v ^ 2 * p.drag * 0.05 * s) /
          p.projMass - 9.81) * simDt⟩) := by
  have hsq : (c * v) ^ 2 + (s * v) ^ 2 = v ^ 2 := by
    linear_combination v ^ 2 * hcs
  show ((⟨pos.x + (c * v + -(0.5 * 1.225 * ((c * v) ^ 2 + (s * v) ^ 2) * p.drag * 0.05 *
          (c * v / Real.sqrt ((c * v) ^ 2 + (s * v) ^ 2)) + p.wind) / p.projMass * simDt) * simDt,
        pos.y + (s * v + (-(0.5 * 1.225 * ((c * v) ^ 2 + (s * v) ^ 2) * p.drag * 0.05 *
          (s * v / Real.sqrt ((c * v) ^ 2 + (s * v) ^ 2))) / p.projMass - 9.81) * simDt) * simDt⟩ : Vec2),
      (⟨c * v + -(0.5 * 1.225 * ((c * v) ^ 2 + (s * v) ^ 2) * p.drag * 0.05 *
          (c * v / Real.sqrt ((c * v) ^ 2 + (s * v) ^ 2)) + p.wind) / p.projMass * simDt,
        s * v + (-(0.5 * 1.225 * ((c * v) ^ 2 + (s * v) ^ 2) * p.drag * 0.05 *
          (s * v / Real.sqrt ((c * v) ^ 2 + (s * v) ^ 2))) / p.projMass - 9.81) * simDt⟩ : Vec2)) = _
  rw [hsq, Real.sqrt_sq hv.le]
  simp only [mul_div_assoc, div_self hv.ne', mul_one]

/-- The spec exhibiting the failure of stiffness-monotonicity under wind:
launch angle 75°, arm length 6 m, arm mass 3 kg, projectile mass 1 kg,
wind 20 m/s, drag coefficient 0 (all within the documented field ranges). -/
def ce6Specs : LauncherSpec :=
  ⟨1, 6, 3, 1, 75, 150, 20, 0⟩

/-- At `ce6Specs`, increasing the stiffness from `50000/529` (release speed
10 m/s) to `200000/529` (release speed 20 m/s) strictly decreases the
returned range: the faster projectile stays aloft longer and the constant
wind force pushes it further back. -/
lemma ce6_wind_range_decreases :
    evalDistAt ce6Specs ce6Specs.angle (200000 / 529) <
      evalDistAt ce6Specs ce6Specs.angle (50000 / 529) := by
  have ha1 := sqrt_two_gt
  have ha2 := sqrt_two_lt
  have hb1 := sqrt_six_gt
  have hb2 := sqrt_six_lt
  have hdt : simDt = 0.016 := rfl
  have he1 : evalDistAt ce6Specs ce6Specs.angle (50000 / 529) =
      simGo ce6Specs 5000
        ⟨0 + Real.cos (((75 : ℝ) - 90) * (Real.pi / 180)) * 6,
         5.5 + Real.sin (((75 : ℝ) - 90) * (Real.pi / 180)) * 6⟩
        ⟨Real.cos ((75 : ℝ) * (Real.pi / 180)) *
           (Real.sqrt ((2 * (0.5 * ((50000 : ℝ) / 529) * 2.3 ^ 2 * 0.4)) /
               ((3 * 6 ^ 2) / 3 + 1 * 6 ^ 2)) * 6),
         Real.sin ((75 : ℝ) * (Real.pi / 180)) *
           (Real.sqrt ((2 * (0.5 * ((50000 : ℝ) / 529) * 2.3 ^ 2 * 0.4)) /
               ((3 * 6 ^ 2) / 3 + 1 * 6 ^ 2)) * 6)⟩ := rfl
  have he2 : evalDistAt ce6Specs ce6Specs.angle (200000 / 529) =
      simGo ce6Specs 5000
        ⟨0 + Real.cos (((75 : ℝ) - 90) * (Real.pi / 180)) * 6,
         5.5 + Real.sin (((75 : ℝ) - 90) * (Real.pi / 180)) * 6⟩
        ⟨Real.cos ((75 : ℝ) * (Real.pi / 180)) *
           (Real.sqrt ((2 * (0.5 * ((200000 : ℝ) / 529) * 2.3 ^ 2 * 0.4)) /
               ((3 * 6 ^ 2) / 3 + 1 * 6 ^ 2)) * 6),
         Real.sin ((75 : ℝ) * (Real.pi / 180)) *
           (Real.sqrt ((2 * (0.5 * ((200000 : ℝ) / 529) * 2.3 ^ 2 * 0.4)) /
               ((3 * 6 ^ 2) / 3 + 1 * 6 ^ 2)) * 6)⟩ := rfl
  rw [he1, he2,
    show ((75 : ℝ) - 90) * (Real.pi / 180) = -(Real.pi / 12) by ring,
    show (75 : ℝ) * (Real.pi / 180) = Real.pi / 2 - Real.pi / 12 by ring,
    Real.cos_neg, Real.sin_neg, Real.cos_pi_div_two_sub, Real.sin_pi_div_two_sub,
    show (2 * (0.5 * ((50000 : ℝ) / 529) * 2.3 ^ 2 * 0.4)) /
        ((3 * 6 ^ 2) / 3 + 1 * 6 ^ 2) = ((5 : ℝ) / 3) ^ 2 by norm_num,
    show (2 * (0.5 * ((200000 : ℝ) / 529) * 2.3 ^ 2 * 0.4)) /
        ((3 * 6 ^ 2) / 3 + 1 * 6 ^ 2) = ((10 : ℝ) / 3) ^ 2 by norm_num,
    Real.sqrt_sq (by norm_num : (0 : ℝ) ≤ 5 / 3),
    Real.sqrt_sq (by norm_num : (0 : ℝ) ≤ 10 / 3)]
  have hcross1 : (5.5 + -Real.sin (Real.pi / 12) * 6) +
      ((144 : ℕ) : ℝ) * simDt * (Real.cos (Real.pi / 12) * (5 / 3 * 6)) -
      9.81 * simDt ^ 2 * (((144 : ℕ) : ℝ) * (((144 : ℕ) : ℝ) + 1)) / 2 ≤ 0 := by
    rw [sin_pi_div_twelve_eq, cos_pi_div_twelve_eq, hdt]
    push_cast
    linarith
  have hbefore1 : ∀ m : ℕ, 1 ≤ m → m < 144 →
      0 < (5.5 + -Real.sin (Real.pi / 12) * 6) +
        (m : ℝ) * simDt * (Real.cos (Real.pi / 12) * (5 / 3 * 6)) -
        9.81 * simDt ^ 2 * ((m : ℝ) * ((m : ℝ) + 1)) / 2 := by
    intro m h1 h2
    have hq := quadPosRange (5.5 + -Real.sin (Real.pi / 12) * 6)
      (simDt * (Real.cos (Real.pi / 12) * (5 / 3 * 6))) (9.81 * simDt ^ 2 / 2)
      (by norm_num [simDt]) 143
      (by rw [sin_pi_div_twelve_eq, cos_pi_div_twelve_eq, hdt]; linarith)
      (by rw [sin_pi_div_twelve_eq, cos_pi_div_twelve_eq, hdt]; push_cast; linarith)
      m h1 (by omega)
    linarith [hq]
  have hcross2 : (5.5 + -Real.sin (Real.pi / 12) * 6) +
      ((258 : ℕ) : ℝ) * simDt * (Real.cos (Real.pi / 12) * (10 / 3 * 6)) -
      9.81 * simDt ^ 2 * (((258 : ℕ) : ℝ) * (((258 : ℕ) : ℝ) + 1)) / 2 ≤ 0 := by
    rw [sin_pi_div_twelve_eq, cos_pi_div_twelve_eq, hdt]
    push_cast
    linarith
  have hbefore2 : ∀ m : ℕ, 1 ≤ m → m < 258 →
      0 < (5.5 + -Real.sin (Real.pi / 12) * 6) +
        (m : ℝ) * simDt * (Real.cos (Real.pi / 12) * (10 / 3 * 6)) -
        9.81 * simDt ^ 2 * ((m : ℝ) * ((m : ℝ) + 1)) / 2 := by
    intro m h1 h2
    have hq := quadPosRange (5.5 + -Real.sin (Real.pi / 12) * 6)
      (simDt * (Real.cos (Real.pi / 12) * (10 / 3 * 6))) (9.81 * simDt ^ 2 / 2)
      (by norm_num [simDt]) 257
      (by rw [sin_pi_div_twelve_eq, cos_pi_div_twelve_eq, hdt]; linarith)
      (by rw [sin_pi_div_twelve_eq, cos_pi_div_twelve_eq, hdt]; push_cast; linarith)
      m h1 (by omega)
    linarith [hq]
  have hL := simGo_dragFree_cross ce6Specs rfl
    ⟨0 + Real.cos (Real.pi / 12) * 6, 5.5 + -Real.sin (Real.pi / 12) * 6⟩
    ⟨Real.sin (Real.pi / 12) * (5 / 3 * 6), Real.cos (Real.pi / 12) * (5 / 3 * 6)⟩
    144 (by norm_num) (by norm_num) hcross1 hbefore1
  have hR := simGo_dragFree_cross ce6Specs rfl
    ⟨0 + Real.cos (Real.pi / 12) * 6, 5.5 + -Real.sin (Real.pi / 12) * 6⟩
    ⟨Real.sin (Real.pi / 12) * (10 / 3 * 6), Real.cos (Real.pi / 12) * (10 / 3 * 6)⟩
    258 (by norm_num) (by norm_num) hcross2 hbefore2
  rw [hL, hR]
  have hw20 : ce6Specs.wind = 20 := rfl
  have hm1 : ce6Specs.projMass = 1 := rfl
  rw [hw20, hm1, sin_pi_div_twelve_eq, cos_pi_div_twelve_eq, hdt]
  push_cast
  linarith

/-- The spec exhibiting the failure of stiffness-monotonicity with zero wind
and nonzero drag: launch angle 75°, arm length 200 m, arm mass 3 kg,
projectile mass 1 kg, wind 0, drag coefficient 10/49. -/
def ce6DragSpecs : LauncherSpec :=
  ⟨1, 200, 3, 1, 75, 150, 0, 10 / 49⟩

/-- At `ce6DragSpecs`, increasing the stiffness from `12.5e9/529` (release
speed 5000 m/s) to `5e10/529` (release speed 10000 m/s) strictly decreases
the returned range: both shots reach the ground within one step, and at the
higher speed the discrete drag update `vx − c·v·vx·dt` cancels the whole
horizontal velocity (`c·v·dt = 1`), so the faster shot travels no horizontal
distance at all. -/
lemma ce6_drag_range_decreases :
    evalDistAt ce6DragSpecs ce6DragSpecs.angle (50000000000 / 529) <
      evalDistAt ce6DragSpecs ce6DragSpecs.angle (12500000000 / 529) := by
  have ha1 := sqrt_two_gt
  have ha2 := sqrt_two_lt
  have hb1 := sqrt_six_gt
  have hb2 := sqrt_six_lt
  have hdt : simDt = 0.016 := rfl
  have he1 : evalDistAt ce6DragSpecs ce6DragSpecs.angle (12500000000 / 529) =
      simGo ce6DragSpecs 5000
        ⟨0 + Real.cos (((75 : ℝ) - 90) * (Real.pi / 180)) * 200,
         5.5 + Real.sin (((75 : ℝ) - 90) * (Real.pi / 180)) * 200⟩
        ⟨Real.cos ((75 : ℝ) * (Real.pi / 180)) *
           (Real.sqrt ((2 * (0.5 * ((12500000000 : ℝ) / 529) * 2.3 ^ 2 * 0.4)) /
               ((3 * 200 ^ 2) / 3 + 1 * 200 ^ 2)) * 200),
         Real.sin ((75 : ℝ) * (Real.pi / 180)) *
           (Real.sqrt ((2 * (0.5 * ((12500000000 : ℝ) / 529) * 2.3 ^ 2 * 0.4)) /
               ((3 * 200 ^ 2) / 3 + 1 * 200 ^ 2)) * 200)⟩ := rfl
  have he2 : evalDistAt ce6DragSpecs ce6DragSpecs.angle (50000000000 / 529) =
      simGo ce6DragSpecs 5000
        ⟨0 + Real.cos (((75 : ℝ) - 90) * (Real.pi / 180)) * 200,
         5.5 + Real.sin (((75 : ℝ) - 90) * (Real.pi / 180)) * 200⟩
        ⟨Real.cos ((75 : ℝ) * (Real.pi / 180)) *
           (Real.sqrt ((2 * (0.5 * ((50000000000 : ℝ) / 529) * 2.3 ^ 2 * 0.4)) /
               ((3 * 200 ^ 2) / 3 + 1 * 200 ^ 2)) * 200),
         Real.sin ((75 : ℝ) * (Real.pi / 180)) *
           (Real.sqrt ((2 * (0.5 * ((50000000000 : ℝ) / 529) * 2.3 ^ 2 * 0.4)) /
               ((3 * 200 ^ 2) / 3 + 1 * 200 ^ 2)) * 200)⟩ := rfl
  rw [he1, he2,
    show ((75 : ℝ) - 90) * (Real.pi / 180) = -(Real.pi / 12) by ring,
    show (75 : ℝ) * (Real.pi / 180) = Real.pi / 2 - Real.pi / 12 by ring,
    Real.cos_neg, Real.sin_neg, Real.cos_pi_div_two_sub, Real.sin_pi_div_two_sub,
    show (2 * (0.5 * ((12500000000 : ℝ) / 529) * 2.3 ^ 2 * 0.4)) /
        ((3 * 200 ^ 2) / 3 + 1 * 200 ^ 2) = (25 : ℝ) ^ 2 by norm_num,
    show (2 * (0.5 * ((50000000000 : ℝ) / 529) * 2.3 ^ 2 * 0.4)) /
        ((3 * 200 ^ 2) / 3 + 1 * 200 ^ 2) = (50 : ℝ) ^ 2 by norm_num,
    Real.sqrt_sq (by norm_num : (0 : ℝ) ≤ 25),
    Real.sqrt_sq (by norm_num : (0 : ℝ) ≤ 50)]
  have hcs : Real.sin (Real.pi / 12) ^ 2 + Real.cos (Real.pi / 12) ^ 2 = 1 :=
    Real.sin_sq_add_cos_sq (Real.pi / 12)
  have hstep1 := flightStep_eval ce6DragSpecs
    ⟨0 + Real.cos (Real.pi / 12) * 200, 5.5 + -Real.sin (Real.pi / 12) * 200⟩
    (Real.sin (Real.pi / 12)) (Real.cos (Real.pi / 12)) (25 * 200)
    (by norm_num) hcs
  have hstep2 := flightStep_eval ce6DragSpecs
    ⟨0 + Real.cos (Real.pi / 12) * 200, 5.5 + -Real.sin (Real.pi / 12) * 200⟩
    (Real.sin (Real.pi / 12)) (Real.cos (Real.pi / 12)) (50 * 200)
    (by norm_num) hcs
  have hy1 : (flightStep ce6DragSpecs
      (⟨0 + Real.cos (Real.pi / 12) * 200, 5.5 + -Real.sin (Real.pi / 12) * 200⟩,
       ⟨Real.sin (Real.pi / 12) * (25 * 200), Real.cos (Real.pi / 12) * (25 * 200)⟩)).1.y ≤ 0 := by
    rw [hstep1]
    show (5.5 + -Real.sin (Real.pi / 12) * 200) +
        (Real.cos (Real.pi / 12) * (25 * 200) +
          (-(0.5 * 1.225 * ((25 : ℝ) * 200) ^ 2 * ce6DragSpecs.drag * 0.05 *
              Real.cos (Real.pi / 12)) / ce6DragSpecs.projMass - 9.81) * simDt) * simDt ≤ 0
    rw [show ce6DragSpecs.drag = (10 : ℝ) / 49 from rfl,
      show ce6DragSpecs.projMass = (1 : ℝ) from rfl,
      sin_pi_div_twelve_eq, cos_pi_div_twelve_eq, hdt]
    linarith
  have hy2 : (flightStep ce6DragSpecs
      (⟨0 + Real.cos (Real.pi / 12) * 200, 5.5 + -Real.sin (Real.pi / 12) * 200⟩,
       ⟨Real.sin (Real.pi / 12) * (50 * 200), Real.cos (Real.pi / 12) * (50 * 200)⟩)).1.y ≤ 0 := by
    rw [hstep2]
    show (5.5 + -Real.sin (Real.pi / 12) * 200) +
        (Real.cos (Real.pi / 12) * (50 * 200) +
          (-(0.5 * 1.225 * ((50 : ℝ) * 200) ^ 2 * ce6DragSpecs.drag * 0.05 *
              Real.cos (Real.pi / 12)) / ce6DragSpecs.projMass - 9.81) * simDt) * simDt ≤ 0
    rw [show ce6DragSpecs.drag = (10 : ℝ) / 49 from rfl,
      show ce6DragSpecs.projMass = (1 : ℝ) from rfl,
      sin_pi_div_twelve_eq, cos_pi_div_twelve_eq, hdt]
    linarith
  have hone1 : simGo ce6DragSpecs 5000
      ⟨0 + Real.cos (Real.pi / 12) * 200, 5.5 + -Real.sin (Real.pi / 12) * 200⟩
      ⟨Real.sin (Real.pi / 12) * (25 * 200), Real.cos (Real.pi / 12) * (25 * 200)⟩ =
      (flightStep ce6DragSpecs
        (⟨0 + Real.cos (Real.pi / 12) * 200, 5.5 + -Real.sin (Real.pi / 12) * 200⟩,
         ⟨Real.sin (Real.pi / 12) * (25 * 200),
          Real.cos (Real.pi / 12) * (25 * 200)⟩)).1.x := by
    rw [show (5000 : ℕ) = 4999 + 1 from rfl, simGo_succ, if_pos hy1]
  have hone2 : simGo ce6DragSpecs 5000
      ⟨0 + Real.cos (Real.pi / 12) * 200, 5.5 + -Real.sin (Real.pi / 12) * 200⟩
      ⟨Real.sin (Real.pi / 12) * (50 * 200), Real.cos (Real.pi / 12) * (50 * 200)⟩ =
      (flightStep ce6DragSpecs
        (⟨0 + Real.cos (Real.pi / 12) * 200, 5.5 + -Real.sin (Real.pi / 12) * 200⟩,
         ⟨Real.sin (Real.pi / 12) * (50 * 200),
          Real.cos (Real.pi / 12) * (50 * 200)⟩)).1.x := by
    rw [show (5000 : ℕ) = 4999 + 1 from rfl, simGo_succ, if_pos hy2]
  rw [hone1, hone2, hstep1, hstep2]
  show (0 + Real.cos (Real.pi / 12) * 200) +
      (Real.sin (Real.pi / 12) * (50 * 200) +
        -(0.5 * 1.225 * ((50 : ℝ) * 200) ^ 2 * ce6DragSpecs.drag * 0.05 *
            Real.sin (Real.pi / 12) + ce6DragSpecs.wind) / ce6DragSpecs.projMass * simDt) *
        simDt <
    (0 + Real.cos (Real.pi / 12) * 200) +
      (Real.sin (Real.pi / 12) * (25 * 200) +
        -(0.5 * 1.225 * ((25 : ℝ) * 200) ^ 2 * ce6DragSpecs.drag * 0.05 *
            Real.sin (Real.pi / 12) + ce6DragSpecs.wind) / ce6DragSpecs.projMass * simDt) *
        simDt
  rw [show ce6DragSpecs.drag = (10 : ℝ) / 49 from rfl,
    show ce6DragSpecs.projMass = (1 : ℝ) from rfl,
    show ce6DragSpecs.wind = (0 : ℝ) from rfl,
    sin_pi_div_twelve_eq, cos_pi_div_twelve_eq, hdt]
  linarith

/-- C6 counterexample: stiffness-monotonicity of the returned range fails on
the code in two independent ways.  (i) With nonzero wind (`ce6Specs`: angle
75°, wind 20, drag 0) quadrupling the stiffness strictly decreases the range:
the faster shot stays aloft longer and the constant wind force pushes it
further back.  (ii) With zero wind and nonzero drag (`ce6DragSpecs`: angle
75°, wind 0, drag 10/49) quadrupling the stiffness also strictly decreases
the range: at the higher release speed the discrete drag update cancels the
entire horizontal velocity within the first step. -/
theorem c6_counterexample_monotonicity_fails :
    ((50000 / 529 : ℝ) < 200000 / 529 ∧ ce6Specs.drag = 0 ∧
      evalDistAt ce6Specs ce6Specs.angle (200000 / 529) <
        evalDistAt ce6Specs ce6Specs.angle (50000 / 529)) ∧
    ((12500000000 / 529 : ℝ) < 50000000000 / 529 ∧ ce6DragSpecs.wind = 0 ∧
      0 < ce6DragSpecs.drag ∧
      evalDistAt ce6DragSpecs ce6DragSpecs.angle (50000000000 / 529) <
        evalDistAt ce6DragSpecs ce6DragSpecs.angle (12500000000 / 529)) :=
  ⟨⟨by norm_num, rfl, ce6_wind_range_decreases⟩,
   ⟨by norm_num, rfl, by norm_num [ce6DragSpecs], ce6_drag_range_decreases⟩⟩

/-! ## Toolbox for C4: a target two metres below every reachable distance -/

lemma foldl_min_le_init : ∀ (l : List ℝ) (d : ℝ), l.foldl min d ≤ d := by
  intro l
  induction l with
  | nil => intro d; exact le_refl d
  | cons x l ih =>
    intro d
    calc (x :: l).foldl min d = l.foldl min (min d x) := rfl
    _ ≤ min d x := ih (min d x)
    _ ≤ d := min_le_left d x

lemma foldl_min_le_mem : ∀ (l : List ℝ) (d x : ℝ), x ∈ l → l.foldl min d ≤ x := by
  intro l
  induction l with
  | nil => intro d x hx; exact absurd hx (List.not_mem_nil x)
  | cons y l ih =>
    intro d x hx
    rcases List.mem_cons.mp hx with rfl | hx
    · calc (x :: l).foldl min d = l.foldl min (min d x) := rfl
      _ ≤ min d x := foldl_min_le_init l (min d x)
      _ ≤ x := min_le_right d x
    · exact ih (min d y) x hx

lemma foldl_min_cases : ∀ (l : List ℝ) (d : ℝ), l.foldl min d = d ∨ l.foldl min d ∈ l := by
  intro l
  induction l with
  | nil => intro d; exact Or.inl rfl
  | cons y l ih =>
    intro d
    rcases ih (min d y) with heq | hmem
    · rcases le_total d y with h | h
      · rw [show (y :: l).foldl min d = l.foldl min (min d y) from rfl, heq,
          min_eq_left h]
        exact Or.inl rfl
      · rw [show (y :: l).foldl min d = l.foldl min (min d y) from rfl, heq,
          min_eq_right h]
        exact Or.inr (List.mem_cons_self y l)
    · exact Or.inr (List.mem_cons_of_mem y hmem)

/-- The midpoint sequence the bisection visits when every evaluated error is
positive (`err > 0` always sets `max = mid`). -/
def descMids : ℕ → ℝ → ℝ → List ℝ
  | 0, _, _ => []
  | n + 1, mn, mx => (mn + mx) / 2 :: descMids n mn ((mn + mx) / 2)

lemma innerPath_eq_descMids (p : LauncherSpec) (a : ℝ) :
    ∀ (n : ℕ) (mn mx : ℝ),
      (∀ m ∈ descMids n mn mx, 0 < evalErrAt p a m) →
      innerPath p a n mn mx = descMids n mn mx := by
  intro n
  induction n with
  | zero => intro mn mx _; rfl
  | succ n ih =>
    intro mn mx h
    have hmid : 0 < evalErrAt p a ((mn + mx) / 2) :=
      h _ (List.mem_cons_self _ _)
    show innerPath p a (n + 1) mn mx = _
    simp only [innerPath, if_pos hmid, descMids]
    rw [ih mn ((mn + mx) / 2) (fun m hm => h m (List.mem_cons_of_mem _ hm))]

lemma flightStep_targetDist (p : LauncherSpec) (z : ℝ) (s : Vec2 × Vec2) :
    flightStep { p with targetDist := z } s = flightStep p s := rfl

lemma simGo_targetDist (p : LauncherSpec) (z : ℝ) :
    ∀ (fuel : ℕ) (pos vel : Vec2),
      simGo { p with targetDist := z } fuel pos vel = simGo p fuel pos vel := by
  intro fuel
  induction fuel with
  | zero => intro pos vel; rfl
  | succ n ih =>
    intro pos vel
    rw [simGo_succ, simGo_succ, flightStep_targetDist]
    by_cases h : (flightStep p (pos, vel)).1.y ≤ 0
    · rw [if_pos h, if_pos h]
    · rw [if_neg h, if_neg h]
      exact ih _ _

/-- The candidate evaluation never reads the target distance. -/
lemma evalDistAt_targetDist (p : LauncherSpec) (z a t : ℝ) :
    evalDistAt { p with targetDist := z } a t = evalDistAt p a t := by
  show simGo { p with targetDist := z } simMaxSteps
      (calculateLaunchVector { p with tension := t, angle := a }).pos
      (calculateLaunchVector { p with tension := t, angle := a }).vel = _
  exact simGo_targetDist p z simMaxSteps _ _

lemma sweepAngles_eq :
    sweepAngles = [15, 20, 25, 30, 35, 40, 45, 50, 55, 60, 65, 70, 75] := by
  show (List.range 13).map (fun i => (15 : ℝ) + 5 * (i : ℝ)) = _
  rw [show List.range 13 = [0, 1, 2, 3, 4, 5, 6, 7, 8, 9, 10, 11, 12] from rfl]
  simp only [List.map]
  norm_num

lemma sweepAngles_bounds : ∀ a ∈ sweepAngles, 15 ≤ a ∧ a ≤ 75 := by
  intro a ha
  rw [sweepAngles_eq] at ha
  fin_cases ha <;> norm_num

/-- The base spec of the C4 boundary construction: angle 45°, arm length
100 m, wind 0, drag 0; the target distance is overridden below. -/
def ce4Base : LauncherSpec :=
  ⟨4000, 100, 25, 10, 45, 150, 0, 0⟩

/-- Every distance the optimizer would evaluate at `ce4Base` along the
always-descend bisection path, over the caller's angle and every sweep
angle. -/
def ce4Dists : List ℝ :=
  ((45 : ℝ) :: sweepAngles).flatMap fun a =>
    (descMids 40 100 150000).map (evalDistAt ce4Base a)

/-- The smallest of those distances. -/
def ce4Min : ℝ :=
  ce4Dists.foldl min (evalDistAt ce4Base 45 ((100 + 150000) / 2))

/-- The C4 boundary spec: the target sits exactly two metres below the
smallest reachable evaluated distance, so the best global error is exactly
2.0. -/
def ce4Specs : LauncherSpec :=
  { ce4Base with targetDist := ce4Min - 2 }

lemma descMids_head_mem : ((100 : ℝ) + 150000) / 2 ∈ descMids 40 100 150000 := by
  show ((100 : ℝ) + 150000) / 2 ∈
    ((100 : ℝ) + 150000) / 2 :: descMids 39 100 (((100 : ℝ) + 150000) / 2)
  exact List.mem_cons_self _ _

lemma ce4Dists_mem (a : ℝ) (ha : a ∈ (45 : ℝ) :: sweepAngles) (m : ℝ)
    (hm : m ∈ descMids 40 100 150000) : evalDistAt ce4Base a m ∈ ce4Dists :=
  List.mem_flatMap.mpr ⟨a, ha, List.mem_map_of_mem _ hm⟩

lemma ce4Min_le (a : ℝ) (ha : a ∈ (45 : ℝ) :: sweepAngles) (m : ℝ)
    (hm : m ∈ descMids 40 100 150000) : ce4Min ≤ evalDistAt ce4Base a m :=
  foldl_min_le_mem ce4Dists _ _ (ce4Dists_mem a ha m hm)

lemma ce4Min_attained : ∃ a ∈ (45 : ℝ) :: sweepAngles, ∃ m ∈ descMids 40 100 150000,
    evalDistAt ce4Base a m = ce4Min := by
  rcases foldl_min_cases ce4Dists (evalDistAt ce4Base 45 ((100 + 150000) / 2)) with heq | hmem
  · exact ⟨45, List.mem_cons_self _ _, ((100 : ℝ) + 150000) / 2, descMids_head_mem, heq.symm⟩
  · rcases List.mem_flatMap.mp hmem with ⟨a, ha, hmap⟩
    rcases List.mem_map.mp hmap with ⟨m, hm, heval⟩
    exact ⟨a, ha, m, hm, heval⟩

lemma ce4_err (a t : ℝ) : evalErrAt ce4Specs a t = evalDistAt ce4Base a t - (ce4Min - 2) := by
  show evalDistAt ce4Specs a t - ce4Specs.targetDist = _
  rw [show ce4Specs.targetDist = ce4Min - 2 from rfl]
  have hinv : evalDistAt ce4Specs a t = evalDistAt ce4Base a t :=
    evalDistAt_targetDist ce4Base (ce4Min - 2) a t
  rw [hinv]

lemma ce4_err_ge_two (a : ℝ) (ha : a ∈ (45 : ℝ) :: sweepAngles) :
    ∀ m ∈ descMids 40 100 150000, 2 ≤ evalErrAt ce4Specs a m := by
  intro m hm
  rw [ce4_err]
  have := ce4Min_le a ha m hm
  linarith

lemma ce4_forced_path (a : ℝ) (ha : a ∈ (45 : ℝ) :: sweepAngles) :
    innerPath ce4Specs a 40 100 150000 = descMids 40 100 150000 :=
  innerPath_eq_descMids ce4Specs a 40 100 150000
    (fun m hm => lt_of_lt_of_le (by norm_num) (ce4_err_ge_two a ha m hm))

/-- At the boundary spec, the inner search at any relevant angle returns an
error of at least 2, and exactly 2 at the distance-minimising angle. -/
lemma ce4_sol (a : ℝ) (ha : a ∈ (45 : ℝ) :: sweepAngles) :
    ∃ t e, solveTensionForAngle ce4Specs a = some (t, e) ∧ 2 ≤ e ∧
      ∀ m ∈ descMids 40 100 150000, e ≤ |evalErrAt ce4Specs a m| := by
  rcases solveTension_spec ce4Specs a with ⟨t, e, hs, hall, ⟨m, hm, _, h2⟩, _, _⟩
  rw [ce4_forced_path a ha] at hall hm
  refine ⟨t, e, hs, ?_, hall⟩
  rw [h2, abs_of_nonneg (by linarith [ce4_err_ge_two a ha m hm])]
  exact ce4_err_ge_two a ha m hm

/-- With zero drag and zero wind and a rightward release velocity, the
returned range is at least the release `x`-position. -/
lemma simGo_dragFree_ge_posx (p : LauncherSpec) (hd : p.drag = 0) (hw : p.wind = 0)
    (pos vel : Vec2) (hvx : 0 ≤ vel.x) : pos.x ≤ simGo p 5000 pos vel := by
  have hx : ∀ m : ℕ, ((flightStep p)^[m] (pos, vel)).1.x = pos.x + m * simDt * vel.x := by
    intro m
    rw [dragFreeIter p hd (pos, vel) m]
    show pos.x + m * simDt * vel.x - p.wind / p.projMass * simDt ^ 2 * (m * (m + 1)) / 2 = _
    rw [hw]
    ring
  have hstep : ∀ m : ℕ, pos.x ≤ pos.x + m * simDt * vel.x := by
    intro m
    have h0 : 0 ≤ (m : ℝ) * simDt * vel.x :=
      mul_nonneg (mul_nonneg (Nat.cast_nonneg m) (by norm_num [simDt])) hvx
    linarith
  rcases simGo_char p 5000 (pos, vel) with ⟨N, _, _, _, _, h5⟩ | ⟨_, h⟩
  · rw [h5, hx N]
    exact hstep N
  · rw [h, hx 5000]
    exact hstep 5000

/-- Every distance the boundary construction evaluates exceeds two metres:
the release point alone already sits more than 25 m downrange. -/
lemma ce4_dist_gt_two (a : ℝ) (ha15 : 15 ≤ a) (ha75 : a ≤ 75) (t : ℝ) :
    2 < evalDistAt ce4Base a t := by
  have hpi := Real.pi_pos
  have he : evalDistAt ce4Base a t = simGo ce4Base 5000
      ⟨0 + Real.cos ((a - 90) * (Real.pi / 180)) * 100,
       5.5 + Real.sin ((a - 90) * (Real.pi / 180)) * 100⟩
      ⟨Real.cos (a * (Real.pi / 180)) *
         (Real.sqrt ((2 * (0.5 * t * 2.3 ^ 2 * 0.4)) /
             ((25 * 100 ^ 2) / 3 + 10 * 100 ^ 2)) * 100),
       Real.sin (a * (Real.pi / 180)) *
         (Real.sqrt ((2 * (0.5 * t * 2.3 ^ 2 * 0.4)) /
             ((25 * 100 ^ 2) / 3 + 10 * 100 ^ 2)) * 100)⟩ := rfl
  have hcos : 0 ≤ Real.cos (a * (Real.pi / 180)) := by
    apply Real.cos_nonneg_of_mem_Icc
    constructor
    · nlinarith
    · nlinarith
  have hvx : 0 ≤ Real.cos (a * (Real.pi / 180)) *
      (Real.sqrt ((2 * (0.5 * t * 2.3 ^ 2 * 0.4)) /
          ((25 * 100 ^ 2) / 3 + 10 * 100 ^ 2)) * 100) :=
    mul_nonneg hcos (mul_nonneg (Real.sqrt_nonneg _) (by norm_num))
  have hposx : 2 < 0 + Real.cos ((a - 90) * (Real.pi / 180)) * 100 := by
    rw [show (a - 90) * (Real.pi / 180) = -(Real.pi / 2 - a * (Real.pi / 180)) by ring,
      Real.cos_neg, Real.cos_pi_div_two_sub]
    have hmono : Real.sin (Real.pi / 12) ≤ Real.sin (a * (Real.pi / 180)) := by
      apply Real.strictMonoOn_sin.monotoneOn
      · constructor
        · nlinarith
        · nlinarith
      · constructor
        · nlinarith
        · nlinarith
      · nlinarith
    have hs12 : 0.25 < Real.sin (Real.pi / 12) := by
      rw [sin_pi_div_twelve_eq]
      linarith [sqrt_two_lt, sqrt_six_gt]
    linarith
  rw [he]
  calc (2 : ℝ) < 0 + Real.cos ((a - 90) * (Real.pi / 180)) * 100 := hposx
  _ ≤ _ := simGo_dragFree_ge_posx ce4Base rfl rfl
      ⟨0 + Real.cos ((a - 90) * (Real.pi / 180)) * 100,
       5.5 + Real.sin ((a - 90) * (Real.pi / 180)) * 100⟩
      ⟨Real.cos (a * (Real.pi / 180)) *
         (Real.sqrt ((2 * (0.5 * t * 2.3 ^ 2 * 0.4)) /
             ((25 * 100 ^ 2) / 3 + 10 * 100 ^ 2)) * 100),
       Real.sin (a * (Real.pi / 180)) *
         (Real.sqrt ((2 * (0.5 * t * 2.3 ^ 2 * 0.4)) /
             ((25 * 100 ^ 2) / 3 + 10 * 100 ^ 2)) * 100)⟩ hvx

lemma ce4_target_pos : 0 < ce4Specs.targetDist := by
  show 0 < ce4Min - 2
  rcases ce4Min_attained with ⟨a, ha, m, hm, heq⟩
  have hb : 15 ≤ a ∧ a ≤ 75 := by
    rcases List.mem_cons.mp ha with rfl | ha'
    · norm_num
    · exact sweepAngles_bounds a ha'
  have hgt := ce4_dist_gt_two a hb.1 hb.2 m
  rw [heq] at hgt
  linarith

/-- At the boundary spec the inner search at the caller's angle fails the
1.0 gate and the sweep's best global error is exactly 2.0. -/
lemma ce4_best_err : ∃ sol : ℝ × ℝ,
    solveTensionForAngle ce4Specs ce4Specs.angle = some sol ∧ 2 ≤ sol.2 ∧
    (sweepFold ce4Specs (sol, ce4Specs.angle) sweepAngles).1.2 = 2 := by
  have hang : ce4Specs.angle = (45 : ℝ) := rfl
  rcases ce4_sol 45 (List.mem_cons_self _ _) with ⟨t45, e45, hs45, hge45, hall45⟩
  refine ⟨(t45, e45), by rw [hang]; exact hs45, hge45, ?_⟩
  rcases sweepFold_char ce4Specs sweepAngles ((t45, e45), ce4Specs.angle) with
    ⟨hinit, hatt, hcases⟩
  have hge : 2 ≤ (sweepFold ce4Specs ((t45, e45), ce4Specs.angle) sweepAngles).1.2 := by
    rcases hcases with heq | ⟨a, ha, te, hte, heq⟩
    · rw [heq]
      exact hge45
    · rcases ce4_sol a (List.mem_cons_of_mem _ ha) with ⟨t', e', hs', hge', _⟩
      rw [hs'] at hte
      injection hte with hte
      rw [heq, ← hte]
      exact hge'
  have hle : (sweepFold ce4Specs ((t45, e45), ce4Specs.angle) sweepAngles).1.2 ≤ 2 := by
    rcases ce4Min_attained with ⟨a, ha, m, hm, heqd⟩
    have herr2 : |evalErrAt ce4Specs a m| = 2 := by
      rw [ce4_err, heqd, show ce4Min - (ce4Min - 2) = (2 : ℝ) by ring,
        abs_of_pos (by norm_num : (0 : ℝ) < 2)]
    rcases List.mem_cons.mp ha with rfl | ha'
    · have hb := hall45 m hm
      rw [herr2] at hb
      exact le_trans hinit hb
    · rcases ce4_sol a (List.mem_cons_of_mem _ ha') with ⟨t', e', hs', _, hall'⟩
      have h1 := hatt a ha' (t', e') hs'
      have h2 := hall' m hm
      rw [herr2] at h2
      exact le_trans h1 h2
  linarith

/-- C4 counterexample: at `ce4Specs` the inner search fails the 1.0 gate (so
the sweep runs), the best global error is not greater than 2.0 (it is exactly
2.0), and yet the optimizer keeps the single-angle result with the
auto-corrected flag false — the code commits only on error strictly below
2.0, refuting the claim's "exactly when not still > 2.0". -/
theorem c4_counterexample_commit_at_exactly_two :
    ∃ sol : ℝ × ℝ, solveTensionForAngle ce4Specs ce4Specs.angle = some sol ∧
      1 < sol.2 ∧
      ¬ 2 < (sweepFold ce4Specs (sol, ce4Specs.angle) sweepAngles).1.2 ∧
      (runOptimizer ce4Specs).autoCorrected = false ∧
      ¬ ((runOptimizer ce4Specs).autoCorrected = true ↔
          ¬ 2 < (sweepFold ce4Specs (sol, ce4Specs.angle) sweepAngles).1.2) ∧
      0 < ce4Specs.targetDist := by
  rcases ce4_best_err with ⟨sol, hs, hge, hbest⟩
  have hgate : 1 < sol.2 := lt_of_lt_of_le (by norm_num) hge
  have hopt : runOptimizer ce4Specs =
      (if 1 < sol.2 then
        (let best := sweepFold ce4Specs (sol, ce4Specs.angle) sweepAngles
         if best.1.2 < 2 then
           ⟨best.1.1, best.2, best.1.2, true, round best.1.1, round best.2⟩
         else ⟨sol.1, ce4Specs.angle, sol.2, false, round sol.1, round ce4Specs.angle⟩)
       else ⟨sol.1, ce4Specs.angle, sol.2, false, round sol.1, round ce4Specs.angle⟩) := by
    rw [runOptimizer, hs]
  have hflag : (runOptimizer ce4Specs).autoCorrected = false := by
    rw [hopt, if_pos hgate]
    show (if (sweepFold ce4Specs (sol, ce4Specs.angle) sweepAngles).1.2 < 2 then
        (⟨(sweepFold ce4Specs (sol, ce4Specs.angle) sweepAngles).1.1,
          (sweepFold ce4Specs (sol, ce4Specs.angle) sweepAngles).2,
          (sweepFold ce4Specs (sol, ce4Specs.angle) sweepAngles).1.2, true,
          round (sweepFold ce4Specs (sol, ce4Specs.angle) sweepAngles).1.1,
          round (sweepFold ce4Specs (sol, ce4Specs.angle) sweepAngles).2⟩ : OptResult)
      else ⟨sol.1, ce4Specs.angle, sol.2, false, round sol.1,
        round ce4Specs.angle⟩).autoCorrected = false
    rw [hbest, if_neg (by norm_num : ¬ (2 : ℝ) < 2)]
  refine ⟨sol, hs, hgate, by rw [hbest]; norm_num, hflag, ?_, ce4_target_pos⟩
  intro hiff
  have hcontra := hiff.mpr (by rw [hbest]; norm_num)
  rw [hflag] at hcontra
  exact absurd hcontra (by norm_num)

/-- C4 amended: the optimizer runs the angle sweep only when the inner search
at the caller's angle yields error above 1.0; the sweep's candidate angles are
exactly 15°,20°,…,75°; the sweep keeps the globally best pair by error (its
error is a lower bound of the single-angle error and of every attempted
angle's error, attained at the initial result or at one of the attempts); and
the sweep's result replaces the single-angle result — setting the
auto-corrected flag — exactly when the best global error is strictly below
2.0, otherwise the original single-angle result is kept with the flag
false. -/
theorem c4_amended_commit_strictly_below_two (p : LauncherSpec) :
    ∃ sol : ℝ × ℝ, solveTensionForAngle p p.angle = some sol ∧
      sweepAngles = [15, 20, 25, 30, 35, 40, 45, 50, 55, 60, 65, 70, 75] ∧
      runOptimizer p =
        (if 1 < sol.2 then
          (if (sweepFold p (sol, p.angle) sweepAngles).1.2 < 2 then
            ⟨(sweepFold p (sol, p.angle) sweepAngles).1.1,
             (sweepFold p (sol, p.angle) sweepAngles).2,
             (sweepFold p (sol, p.angle) sweepAngles).1.2, true,
             round (sweepFold p (sol, p.angle) sweepAngles).1.1,
             round (sweepFold p (sol, p.angle) sweepAngles).2⟩
          else ⟨sol.1, p.angle, sol.2, false, round sol.1, round p.angle⟩)
        else ⟨sol.1, p.angle, sol.2, false, round sol.1, round p.angle⟩) ∧
      (sweepFold p (sol, p.angle) sweepAngles).1.2 ≤ sol.2 ∧
      (∀ a ∈ sweepAngles, ∀ te, solveTensionForAngle p a = some te →
        (sweepFold p (sol, p.angle) sweepAngles).1.2 ≤ te.2) ∧
      (sweepFold p (sol, p.angle) sweepAngles = (sol, p.angle) ∨
        ∃ a ∈ sweepAngles, ∃ te, solveTensionForAngle p a = some te ∧
          sweepFold p (sol, p.angle) sweepAngles = (te, a)) := by
  rcases solveTension_spec p p.angle with ⟨t, e, hs, _, _, _, _⟩
  rcases sweepFold_char p sweepAngles ((t, e), p.angle) with ⟨h1, h2, h3⟩
  refine ⟨(t, e), hs, sweepAngles_eq, ?_, h1, h2, h3⟩
  rw [runOptimizer, hs]

end
